import Mathlib

/-!
Verification of the RimWorld translation extraction and reconciliation engine
(`Programas/extractor.py`) against its natural-language specification.

The Python source is shallowly embedded below.  Conventions of the embedding:

* Python dictionaries become association lists `List (String × String)` built
  with `dinsert` (assigning to a present key updates it in place, keeping its
  insertion position; a new key is appended), looked up with `dlookup`, and
  iterated in list order, which models CPython's insertion-ordered dicts.
* `str.strip()` is `pyStrip` (ASCII whitespace — the source data is ASCII/UTF-8
  text where the distinction with Python's wider Unicode whitespace set does
  not arise), `str.upper()`/`str.lower()` are `pyUpper`/`pyLower` (ASCII case
  table), `str.replace` is `pyReplace` (both replace all non-overlapping
  occurrences left to right), `a in b` on strings is `listHasSub`/`substrCI`,
  `list.sort` is `pySort` (any two stable sorts under the same total preorder
  agree, so a stable insertion sort models Python's stable sort exactly).
* An XML element (`xml.etree.ElementTree`) is an `XNode`: a tag, an optional
  text, and a list of children.  Comments never occur as children in the model,
  matching `ET.parse` which the extractor uses only on documents it then walks
  by tag.  `element.find(t)` is `findChild` (first child with tag `t`).
* File contents written by the two writers are modelled by `OutDoc` (the live
  records and the commented-out orphan records) plus a byte-level serializer
  (`serializeDefInj`, `serializeKeyed`) reproducing the exact `f.write` calls.
  Re-reading an output file that the writer produced (`ET.parse` of it) yields
  exactly the live elements with non-empty text, comments being skipped and
  `xml.sax.saxutils.escape` being inverted by the XML parser; this composition
  is `parseDefDoc` / `parseKeyedDoc`.
-/

/-! ### Dictionary model (Python `dict`) -/

/-- Lookup in an association list: first binding wins (lists built with
`dinsert` never hold a key twice, mirroring a Python dict). -/
def dlookup : List (String × String) → String → Option String
  | [], _ => none
  | (k, v) :: rest, key => if k == key then some v else dlookup rest key

/-- Python `d[k] = v`: update the binding in place if the key is present,
else append it, preserving insertion order. -/
def dinsert : List (String × String) → String → String → List (String × String)
  | [], k, v => [(k, v)]
  | (k', v') :: rest, k, v =>
    if k' == k then (k, v) :: rest else (k', v') :: dinsert rest k v

/-- Python `d.get(k, 0)` for the `name_indices` counter dict. -/
def lookupNat : List (String × Nat) → String → Nat
  | [], _ => 0
  | (k, v) :: rest, key => if k == key then v else lookupNat rest key

/-- Python `d[k] = v` for the `name_indices` counter dict. -/
def setNat : List (String × Nat) → String → Nat → List (String × Nat)
  | [], k, v => [(k, v)]
  | (k', v') :: rest, k, v =>
    if k' == k then (k, v) :: rest else (k', v') :: setNat rest k v

/-! ### String helpers mirroring the Python primitives -/

/-- The whitespace recognised by `str.strip()` on the ASCII data at hand. -/
def isPyWS (c : Char) : Bool :=
  c == ' ' || c == '\t' || c == '\n' || c == '\r'

/-- Python `s.strip()`: drop leading and trailing whitespace. -/
def pyStrip (s : String) : String :=
  String.mk (((s.data.dropWhile isPyWS).reverse.dropWhile isPyWS).reverse)

/-- Bool test: `needle` starts the list `hay` (helper for substring search). -/
def listStartsWith : List Char → List Char → Bool
  | _, [] => true
  | [], _ :: _ => false
  | h :: t, n :: ns => h == n && listStartsWith t ns

/-- Bool test: `needle in hay` (Python substring containment). -/
def listHasSub : List Char → List Char → Bool
  | [], needle => needle.isEmpty
  | h :: t, needle => listStartsWith (h :: t) needle || listHasSub t needle

/-- ASCII lower-casing of one character (the tag and path data is ASCII, where
Python's `str.lower` agrees with the ASCII table). -/
def lowerChar (c : Char) : Char :=
  if 'A' ≤ c && c ≤ 'Z' then Char.ofNat (c.toNat + 32) else c

/-- ASCII upper-casing of one character. -/
def upperChar (c : Char) : Char :=
  if 'a' ≤ c && c ≤ 'z' then Char.ofNat (c.toNat - 32) else c

/-- Python `s.lower()`. -/
def pyLower (s : String) : String :=
  String.mk (s.data.map lowerChar)

/-- Python `s.upper()`. -/
def pyUpper (s : String) : String :=
  String.mk (s.data.map upperChar)

/-- Replacement worker: fuel-indexed so the kernel can evaluate it; each step
consumes at least one character, so `fuel = length` suffices. -/
def replaceListAux (pat rep : List Char) : Nat → List Char → List Char
  | _, [] => []
  | 0, l => l
  | fuel + 1, h :: t =>
    if !pat.isEmpty && listStartsWith (h :: t) pat then
      rep ++ replaceListAux pat rep fuel (List.drop (pat.length - 1) t)
    else h :: replaceListAux pat rep fuel t

/-- Python `s.replace(pat, rep)`: every non-overlapping occurrence, scanning
left to right. -/
def pyReplace (s pat rep : String) : String :=
  String.mk (replaceListAux pat.data rep.data s.data.length s.data)

/-- Python `s.endswith(suf)`. -/
def pyEndsWith (s suf : String) : Bool :=
  listStartsWith s.data.reverse suf.data.reverse

/-- Python `'.' in s`. -/
def hasDot (s : String) : Bool :=
  s.data.contains '.'

/-- Worker for `split('.')`. -/
def splitDotAux : List Char → List Char → List (List Char)
  | [], acc => [acc.reverse]
  | c :: t, acc =>
    if c == '.' then acc.reverse :: splitDotAux t [] else splitDotAux t (c :: acc)

/-- Python `s.split('.')`. -/
def splitDot (s : String) : List String :=
  (splitDotAux s.data []).map String.mk

/-- Python `'.'.join(l)`. -/
def joinWithDot : List String → String
  | [] => ""
  | [x] => x
  | x :: y :: t => x ++ "." ++ joinWithDot (y :: t)

/-- Code-point lexicographic `<` on character lists (Python string `<`). -/
def listCharLT : List Char → List Char → Bool
  | [], [] => false
  | [], _ :: _ => true
  | _ :: _, [] => false
  | a :: as_, b :: bs =>
    if a.toNat < b.toNat then true
    else if b.toNat < a.toNat then false
    else listCharLT as_ bs

/-- Python string `<`, comparing code points lexicographically. -/
def strLT (a b : String) : Bool :=
  listCharLT a.data b.data

/-- Python `needle.lower() in hay.lower()` (extractor.py line 662/665). -/
def substrCI (needle hay : String) : Bool :=
  listHasSub (pyLower hay).data (pyLower needle).data

/-- Python `needle in hay`, case sensitive (extractor.py line 881). -/
def strContains (hay needle : String) : Bool :=
  listHasSub hay.data needle.data

/-- `xml.sax.saxutils.escape`: `&`, then `<`, then `>`. -/
def xmlEscape (s : String) : String :=
  pyReplace (pyReplace (pyReplace s "&" "&amp;") "<" "&lt;") ">" "&gt;"

/-- Python `key.split('.')[0] if '.' in key else key` (both branches agree with
taking the text before the first dot). -/
def defPart (k : String) : String :=
  (splitDot k).headD k

/-! ### Decimal rendering of `str(i)` for the numeric key parts -/

/-- One decimal digit (argument is always `< 10` at use sites). -/
def decDigit (n : Nat) : Char :=
  match n with
  | 0 => '0'
  | 1 => '1'
  | 2 => '2'
  | 3 => '3'
  | 4 => '4'
  | 5 => '5'
  | 6 => '6'
  | 7 => '7'
  | 8 => '8'
  | _ => '9'

/-- Digits accumulator; the first argument is fuel, always `≥` the number. -/
def natToDecAux : Nat → Nat → List Char → List Char
  | 0, n, acc => decDigit (n % 10) :: acc
  | fuel + 1, n, acc =>
    if n < 10 then decDigit n :: acc
    else natToDecAux fuel (n / 10) (decDigit (n % 10) :: acc)

/-- Python `str(i)` for a non-negative integer. -/
def natToDec (n : Nat) : String :=
  String.mk (natToDecAux n n [])

/-! ### Archive index builder (extractor.py lines 295-327)

`load_archive_translations` walks every XML file under a reference tree and
indexes `tag ↦ stripped text`, skipping entries whose stripped text is empty or
equals the placeholder case-insensitively (`text.upper() != "TODO"`).  The
per-file loader `load_single_xml_translations` (lines 315-327) applies the
identical filter, so one definition embeds both; `items` is the flattened
stream of `(child.tag, child.text)` pairs in document/file order. -/

def load_archive_translations (items : List (String × Option String)) :
    List (String × String) :=
  items.foldl (fun m it =>
    match it.2 with
    | some raw =>
      if it.1 != "" && raw != "" then
        if pyStrip raw != "" && pyUpper (pyStrip raw) != "TODO" then
          dinsert m it.1 (pyStrip raw)
        else m
      else m
    | none => m) []

/-! ### Translation merger: the per-key fallback chains -/

/-- DefInjected archive fallback (extractor.py lines 944-961): local file, then
global archive, then the four suffix-synonym lookups against the global
archive, else the incoming value `v` (`"TODO"` or `""`) is kept.  Note the
source uses `key.replace`, substituting every occurrence of the dotted
fragment, guarded by `key.endswith`. -/
def archiveFallbackDef (localT glob : List (String × String)) (key v : String) :
    String :=
  match dlookup localT key with
  | some lv => lv
  | none =>
    match dlookup glob key with
    | some gv => gv
    | none =>
      if pyEndsWith key ".baseDesc" &&
          (dlookup glob (pyReplace key ".baseDesc" ".description")).isSome then
        (dlookup glob (pyReplace key ".baseDesc" ".description")).getD v
      else if pyEndsWith key ".description" &&
          (dlookup glob (pyReplace key ".description" ".baseDesc")).isSome then
        (dlookup glob (pyReplace key ".description" ".baseDesc")).getD v
      else if pyEndsWith key ".title" &&
          (dlookup glob (pyReplace key ".title" ".label")).isSome then
        (dlookup glob (pyReplace key ".title" ".label")).getD v
      else if pyEndsWith key ".label" &&
          (dlookup glob (pyReplace key ".label" ".title")).isSome then
        (dlookup glob (pyReplace key ".label" ".title")).getD v
      else v

/-- DefInjected value resolution for one key (extractor.py lines 942-961):
`val_to_write = existing_translations.get(key, "TODO")`, and the archive chain
runs only when that value is exactly `"TODO"` or empty. -/
def resolveDef (existing localT glob : List (String × String)) (key : String) :
    String :=
  let v := (dlookup existing key).getD "TODO"
  if v == "TODO" || v == "" then archiveFallbackDef localT glob key v else v

/-- Keyed value resolution for one key (extractor.py lines 720-729).  The
archive is consulted only when the key is present in the *global* index
(`entry['key'] in archive_translations` guards the whole block); within the
block the local file wins over the global index. -/
def resolveKeyed (existing localT glob : List (String × String)) (key : String) :
    String :=
  let v := (dlookup existing key).getD "TODO"
  if (v == "TODO" || v == "") && (dlookup glob key).isSome then
    match dlookup localT key with
    | some lv => lv
    | none => (dlookup glob key).getD v
  else v

/-! ### XML tree model and the key-path deriver (extractor.py lines 598-669) -/

/-- An `xml.etree.ElementTree` element: tag, optional text, children. -/
inductive XNode where
  | mk (tag : String) (text : Option String) (children : List XNode)

/-- Tag accessor. -/
def XNode.tag : XNode → String
  | .mk t _ _ => t

/-- Text accessor (`None` when the element has no text). -/
def XNode.text : XNode → Option String
  | .mk _ tx _ => tx

/-- Children accessor. -/
def XNode.children : XNode → List XNode
  | .mk _ _ cs => cs

/-- Python `element.find(t)`: first child with the given tag. -/
def findChild (n : XNode) (t : String) : Option XNode :=
  n.children.find? (fun c => c.tag == t)

/-- Sanitisation of a `customLabel` (extractor.py lines 604-607): strip,
spaces to underscores, keep only alphanumerics, `_` and `-`. -/
def sanitizeLabel (t : String) : String :=
  String.mk ((pyReplace (pyStrip t) " " "_").data.filter
    (fun c => c.isAlphanum || c == '_' || c == '-'))

/-- Fallback to the `def` child (extractor.py lines 609-613). -/
def liNameViaDef (e : XNode) : Option String :=
  match findChild e "def" with
  | some d =>
    match d.text with
    | some t => if t == "" then none else some (pyStrip t)
    | none => none
  | none => none

/-- `get_li_name` (extractor.py lines 600-613): `customLabel` text if truthy
(the sanitised result may still be empty), else the `def` child, else `None`. -/
def get_li_name (e : XNode) : Option String :=
  match findChild e "customLabel" with
  | some cl =>
    match cl.text with
    | some t => if t == "" then liNameViaDef e else some (sanitizeLabel t)
    | none => liNameViaDef e
  | none => liNameViaDef e

/-- The truthy view of `get_li_name`: every use site guards with `if name:`,
so a `""` result behaves exactly like `None`. -/
def liNameT (e : XNode) : Option String :=
  match get_li_name e with
  | some s => if s == "" then none else some s
  | none => none

/-- The `name_counts` histogram (extractor.py lines 615-626) evaluated at one
name: how many `li` children carry that truthy name. -/
def liNameCount (children : List XNode) (n : String) : Nat :=
  (children.filter (fun c => c.tag == "li" && liNameT c == some n)).length

/-- Key part chosen for one child (extractor.py lines 631-652), threading the
`name_indices` per-name counters and the running `li_index`. -/
def computePart (allChildren : List XNode) (child : XNode)
    (ni : List (String × Nat)) (liIndex : Nat) :
    String × List (String × Nat) × Nat :=
  if child.tag == "li" then
    match liNameT child with
    | some name =>
      if liNameCount allChildren name > 1 then
        (name ++ "-" ++ natToDec (lookupNat ni name),
         setNat ni name (lookupNat ni name + 1), liIndex + 1)
      else (name, ni, liIndex + 1)
    | none => (natToDec liIndex, ni, liIndex + 1)
  else (child.tag, ni, liIndex)

/-- The parts the loop assigns to the children of one parent, in order,
skipping the `defName` child exactly as the loop does. -/
def childParts (allChildren : List XNode) :
    List XNode → List (String × Nat) → Nat → List (XNode × String)
  | [], _, _ => []
  | child :: rest, ni, liIndex =>
    if child.tag == "defName" then childParts allChildren rest ni liIndex
    else
      let pr := computePart allChildren child ni liIndex
      (child, pr.1) :: childParts allChildren rest pr.2.1 pr.2.2

/-- The translatability decision for a leaf (extractor.py lines 661-665):
blacklist substring match vetoes, else whitelist substring match or the
rule-strings list context admits. -/
def shouldEmit (bl wl : List String) (tag : String) (isRulesList : Bool) : Bool :=
  if bl.any (fun b => substrCI b tag) then false
  else wl.any (fun w => substrCI w tag) || isRulesList

/-- The entry (if any) emitted at one child (extractor.py lines 660-666): a
leaf (`len(child) == 0`) with truthy, non-whitespace text passing
`shouldEmit`; the value is the stripped text. -/
def emitChild (bl wl : List String) (parentTag : String) (child : XNode)
    (newPath : String) : List (String × String) :=
  match child.text with
  | some t =>
    if t != "" && pyStrip t != "" && child.children.isEmpty then
      if shouldEmit bl wl child.tag
          (parentTag == "rulesStrings" && child.tag == "li") then
        [(newPath, pyStrip t)]
      else []
    else []
  | none => []

mutual

/-- `extract_recursive` (extractor.py lines 598-669): emitted `(key, text)`
pairs below `node`, with `currentPath` as the dotted prefix. -/
def extract_recursive (bl wl : List String) (node : XNode)
    (currentPath : String) : List (String × String) :=
  match node with
  | .mk tag _tx children => extractLoop bl wl tag children children [] 0 currentPath
termination_by structural node

/-- The `for i, child in enumerate(node)` loop of `extract_recursive`,
threading `name_indices` and `li_index`. -/
def extractLoop (bl wl : List String) (parentTag : String)
    (allChildren rest : List XNode) (ni : List (String × Nat)) (liIndex : Nat)
    (currentPath : String) : List (String × String) :=
  match rest with
  | [] => []
  | child :: rest' =>
    if child.tag == "defName" then
      extractLoop bl wl parentTag allChildren rest' ni liIndex currentPath
    else
      let pr := computePart allChildren child ni liIndex
      let newPath := currentPath ++ "." ++ pr.1
      emitChild bl wl parentTag child newPath
        ++ extract_recursive bl wl child newPath
        ++ extractLoop bl wl parentTag allChildren rest' pr.2.1 pr.2.2 currentPath
termination_by structural rest

end

/-- The default whitelist (extractor.py lines 25-33). -/
def translatable_tags : List String :=
  ["label", "description", "jobString", "reportString", "pawnLabel",
   "graphLabel", "verb", "gerund", "deathMessage", "skillLabel",
   "labelNoun", "labelShort", "labelPlural", "adjective", "text",
   "rejectionMessage", "helpText", "labelShortAdj", "flavorText",
   "title", "titleShort", "baseDesc", "titleFemale", "titleShortFemale",
   "letterLabel", "letterText", "extraOutcomeDesc",
   "customLabel", "chargeNoun", "endMessage"]

/-- The default blacklist (extractor.py lines 36-38). -/
def blacklisted_tags : List String :=
  ["verbClass", "commandTexture", "commandLabelKey", "texPath", "iconPath"]

/-! ### The DefInjected per-file pipeline (extractor.py lines 835-983) -/

/-- One processed entry: rewritten key, freshly derived English text, and the
split used for ordering. -/
structure PEntry where
  key : String
  value : String
  def_name : String
  field : String

/-- Backstory `baseDesc → description` rename plus the def/field split
(extractor.py lines 884-901). -/
def splitEntry (isBackstory : Bool) (e : String × String) : PEntry :=
  if hasDot e.1 then
    let parts := splitDot e.1
    let dn := parts.headD ""
    let fld := joinWithDot parts.tail
    if isBackstory && fld == "baseDesc" then
      { key := dn ++ ".description", value := e.2, def_name := dn,
        field := "description" }
    else { key := e.1, value := e.2, def_name := dn, field := fld }
  else { key := e.1, value := e.2, def_name := e.1, field := "" }

/-- The field priority table (extractor.py line 904). -/
def prioOf (f : String) : Nat :=
  if f == "label" then 1
  else if f == "description" then 2
  else if f == "title" then 3
  else if f == "titleShort" then 4
  else if f == "baseDesc" then 5
  else if f == "deathMessage" then 6
  else if f == "endMessage" then 7
  else 99

/-- Sort order of line 904: by `def_name`, then by field priority; a stable
sort under this total preorder models Python's stable `list.sort`. -/
def entryLE (a b : PEntry) : Bool :=
  if strLT a.def_name b.def_name then true
  else if a.def_name == b.def_name then Nat.ble (prioOf a.field) (prioOf b.field)
  else false

/-- Stable insertion of `x` into an already sorted list: `x` is placed before
the first element it compares `≤` to, so earlier-listed elements win ties. -/
def orderedInsertB (le : PEntry → PEntry → Bool) (x : PEntry) :
    List PEntry → List PEntry
  | [] => [x]
  | y :: t => if le x y then x :: y :: t else y :: orderedInsertB le x t

/-- Stable sort (insertion sort) with a Bool `≤`; models Python's stable
`list.sort(key=...)` of extractor.py line 904. -/
def pySort (le : PEntry → PEntry → Bool) : List PEntry → List PEntry
  | [] => []
  | x :: t => orderedInsertB le x (pySort le t)

/-- `present_defs` of the implicit-recovery step (extractor.py lines 852-860):
the definition-name component of every fresh key. -/
def presentDefs (entries : List (String × String)) : List String :=
  entries.map (fun e => defPart e.1)

/-- The implicit-recovery scan (extractor.py lines 862-876): dotted global
archive keys whose definition part is present but whose exact key is not,
valued by the English archive or the literal marker. -/
def extraEntries (entries glob english : List (String × String)) :
    List (String × String) :=
  glob.foldl (fun acc p =>
    if hasDot p.1 && (presentDefs entries).contains (defPart p.1)
        && !((entries.map Prod.fst).contains p.1) then
      acc ++ [(p.1, (dlookup english p.1).getD "(Implicit/Inherited)")]
    else acc) []

/-- `entries.extend(extra_entries)` guarded by the option (lines 851-877). -/
def entriesAfterRecover (recover : Bool) (entries glob english : List (String × String)) :
    List (String × String) :=
  if recover then entries ++ extraEntries entries glob english else entries

/-- Recovery, backstory rename and sort (extractor.py lines 850-906). -/
def processedEntries (defType : String) (recover : Bool)
    (entries glob english : List (String × String)) : List PEntry :=
  pySort entryLE ((entriesAfterRecover recover entries glob english).map
    (splitEntry (strContains defType "Backstory")))

/-- The keys the writer marks as used (extractor.py lines 931-934). -/
def usedKeysDef (defType : String) (recover : Bool)
    (entries glob english : List (String × String)) : List String :=
  (processedEntries defType recover entries glob english).map PEntry.key

/-- One live record of an output document: element name, the freshly derived
English source text (written in the preceding comment), and the resolved
translated value (escaped only at serialisation time). -/
structure DocEntry where
  key : String
  source : String
  value : String

/-- An output document: live records in written order, then the commented-out
orphan records of the `INUTILIZADO` section. -/
structure OutDoc where
  lives : List DocEntry
  orphans : List (String × String)

/-- The DefInjected writer for one `def_type` (extractor.py lines 909-979),
as the document it produces from the parsed prior output `existing`. -/
def saveDefDoc (defType : String) (recover : Bool)
    (entries glob english localT existing : List (String × String)) : OutDoc :=
  let sorted := processedEntries defType recover entries glob english
  { lives := sorted.map (fun e =>
      { key := e.key, source := e.value,
        value := resolveDef existing localT glob e.key }),
    orphans := existing.filter (fun p =>
      !((sorted.map PEntry.key).contains p.1)) }

/-- The Keyed writer (extractor.py lines 714-744) as the document it produces. -/
def saveKeyedDoc (entries localT glob existing : List (String × String)) : OutDoc :=
  { lives := entries.map (fun e =>
      { key := e.1, source := e.2,
        value := resolveKeyed existing localT glob e.1 }),
    orphans := existing.filter (fun p =>
      !((entries.map Prod.fst).contains p.1)) }

/-- Shared shape of re-reading an output file the writer produced: `ET.parse`
returns the live elements only (comments are skipped), the XML parser undoes
`escape`, an element whose text is empty has `child.text is None` and is
dropped by the `if child.tag and child.text` guard, and the reader
post-processes the text with `g`. -/
def parseDocWith (g : String → String) (doc : OutDoc) : List (String × String) :=
  doc.lives.foldl (fun m e =>
    if e.key != "" && e.value != "" then dinsert m e.key (g e.value) else m) []

/-- Re-reading a DefInjected output file (extractor.py lines 913-922): the
value is stripped (`child.text.strip()`). -/
def parseDefDoc (doc : OutDoc) : List (String × String) :=
  parseDocWith pyStrip doc

/-- Re-reading a Keyed output file (extractor.py lines 693-702): the value is
taken verbatim (`child.text`, no strip). -/
def parseKeyedDoc (doc : OutDoc) : List (String × String) :=
  parseDocWith (fun v => v) doc

/-- Comment sanitisation `entry['value'].replace('--', '- -')` (line 940/721). -/
def commentSafe (s : String) : String :=
  pyReplace s "--" "- -"

/-- The live part of the DefInjected serialisation (extractor.py lines
930-968): a blank line between definition groups (`last_def` truthiness
included), then the EN comment and the escaped element. -/
def serLivesDef : List DocEntry → Option String → String
  | [], _ => ""
  | e :: rest, lastDef =>
    let cur := defPart e.key
    let sep :=
      match lastDef with
      | some d => if d != "" && cur != d then "\n" else ""
      | none => ""
    sep ++ "  <!-- EN: " ++ commentSafe e.source ++ " -->\n  <" ++ e.key ++ ">"
      ++ xmlEscape e.value ++ "</" ++ e.key ++ ">\n"
      ++ serLivesDef rest (some cur)

/-- The orphan section (extractor.py lines 970-976 and 736-742; the orphaned
values are written verbatim, without escaping). -/
def serOrphans (orphans : List (String × String)) : String :=
  if orphans.isEmpty then ""
  else "\n  <!-- INUTILIZADO -->\n"
    ++ String.join (orphans.map (fun p =>
         "  <!-- <" ++ p.1 ++ ">" ++ p.2 ++ "</" ++ p.1 ++ "> -->\n"))

/-- Byte-exact DefInjected serialisation (extractor.py lines 925-979). -/
def serializeDefInj (doc : OutDoc) : String :=
  "<?xml version=\"1.0\" encoding=\"UTF-8\"?>\n<LanguageData>\n  \n"
    ++ serLivesDef doc.lives none
    ++ serOrphans doc.orphans
    ++ "  \n</LanguageData>"

/-- Byte-exact Keyed serialisation (extractor.py lines 714-744). -/
def serializeKeyed (doc : OutDoc) : String :=
  "<?xml version=\"1.0\" encoding=\"UTF-8\"?>\n<LanguageData>\n"
    ++ String.join (doc.lives.map (fun e =>
         "\n  <!-- EN: " ++ commentSafe e.source ++ " -->\n  <" ++ e.key ++ ">"
           ++ xmlEscape e.value ++ "</" ++ e.key ++ ">\n"))
    ++ serOrphans doc.orphans
    ++ "\n</LanguageData>\n"

/-! ### Prior output state and the reported action -/

/-- The state of the output path before a run: no file, an unparseable file
(`ET.ParseError` is caught and leaves the dict empty), or a parsed file whose
readable entries are `m`. -/
inductive Prior where
  | absent
  | unreadable
  | parsed (m : List (String × String))

/-- The `existing_translations` dict obtained from a prior state
(extractor.py lines 913-922 and 693-702). -/
def readExisting : Prior → List (String × String)
  | .absent => []
  | .unreadable => []
  | .parsed m => m

/-- The reported action (extractor.py lines 746 and 981):
`"Actualizado" if existing_translations else "Generado"` — it tests the
parsed dict for *emptiness*, not the file for existence. -/
def actionFor (p : Prior) : String :=
  if readExisting p == [] then "Generado" else "Actualizado"

/-! ### Version/path resolver: wrapper-folder flattening -/

/-- The `simplify_mods` path transform (extractor.py lines 444-453, repeated
verbatim at 517-526): find the first segment equal to `mods` after lowering;
if it has a following segment, delete the pair, else leave the path alone. -/
def simplify_mods (parts : List String) : List String :=
  match List.findIdx? (fun p => pyLower p == "mods") parts with
  | some i =>
    if parts.length > i + 1 then parts.take i ++ parts.drop (i + 2) else parts
  | none => parts

/-! ### Specification-side helpers for the disambiguation analysis -/

/-- Decimal digit decoding, inverse of `decDigit` on digits. -/
def digitVal (c : Char) : Nat :=
  match c with
  | '0' => 0
  | '1' => 1
  | '2' => 2
  | '3' => 3
  | '4' => 4
  | '5' => 5
  | '6' => 6
  | '7' => 7
  | '8' => 8
  | _ => 9

/-- The key parts assigned to the `li` children whose truthy resolved display
name is `n`, in order, read off a `childParts` result. -/
def liPartsFor (n : String) : List (XNode × String) → List String
  | [] => []
  | pc :: rest =>
    if pc.1.tag == "li" && liNameT pc.1 == some n then pc.2 :: liPartsFor n rest
    else liPartsFor n rest

/-! ### Concrete instances used by counterexamples -/

/-- Parent node for the disambiguation counterexample: one `li` named `"2"`
through its `def` reference child, one anonymous empty `li`, and one anonymous
`li` holding a `label` leaf, sitting at list position 2. -/
def cexNodeC6 : XNode :=
  .mk "ruleX" none
    [ .mk "li" none [ .mk "def" (some "2") [], .mk "label" (some "x") [] ],
      .mk "li" none [],
      .mk "li" none [ .mk "label" (some "y") [] ] ]

/-- Claim-side vocabulary: the merge treats a key as untranslated when the
parsed prior output has no value for it, the exact placeholder, or the empty
string (extractor.py lines 942-945 and 722-725). -/
abbrev untranslatedAt (existing : List (String × String)) (k : String) : Prop :=
  dlookup existing k = none ∨ dlookup existing k = some "TODO"
    ∨ dlookup existing k = some ""

/-- Parent node for the disambiguation witness: two sibling `li` items both
named `"a"` through their `def` reference children. -/
def wNodeC6 : XNode :=
  .mk "parent" none
    [ .mk "li" none [ .mk "def" (some "a") [], .mk "label" (some "x1") [] ],
      .mk "li" none [ .mk "def" (some "a") [], .mk "label" (some "x2") [] ] ]

/-! ## Helper lemmas -/

theorem dlookup_mem {m : List (String × String)} {k v : String}
    (h : dlookup m k = some v) : (k, v) ∈ m := by
  induction m with
  | nil => simp [dlookup] at h
  | cons q rest ih =>
    obtain ⟨q1, q2⟩ := q
    rw [dlookup] at h
    by_cases hq : q1 == k
    · have hq' : q1 = k := by simpa using hq
      rw [if_pos hq] at h
      injection h with h2
      subst hq'
      subst h2
      exact List.mem_cons_self _ _
    · rw [if_neg hq] at h
      exact List.mem_cons_of_mem _ (ih h)

theorem mem_dinsert {m : List (String × String)} {k v : String} {p : String × String}
    (h : p ∈ dinsert m k v) : p = (k, v) ∨ p ∈ m := by
  induction m with
  | nil => simpa [dinsert] using h
  | cons q rest ih =>
    obtain ⟨q1, q2⟩ := q
    rw [dinsert] at h
    by_cases hq : q1 == k
    · rw [if_pos hq] at h
      rcases List.mem_cons.mp h with h | h
      · exact Or.inl h
      · exact Or.inr (List.mem_cons_of_mem _ h)
    · rw [if_neg hq] at h
      rcases List.mem_cons.mp h with h | h
      · exact Or.inr (by simp [h])
      · rcases ih h with h | h
        · exact Or.inl h
        · exact Or.inr (List.mem_cons_of_mem _ h)

theorem dlookup_dinsert (m : List (String × String)) (k v key : String) :
    dlookup (dinsert m k v) key = if k = key then some v else dlookup m key := by
  induction m with
  | nil =>
    by_cases h : k = key
    · simp [dinsert, dlookup, h]
    · simp [dinsert, dlookup, h, fun hh => h (by simpa using hh : k = key)]
  | cons q rest ih =>
    obtain ⟨q1, q2⟩ := q
    rw [dinsert]
    by_cases hq : q1 == k
    · have hq' : q1 = k := by simpa using hq
      subst hq'
      rw [if_pos hq, dlookup]
      by_cases hk : q1 == key
      · have hk' : q1 = key := by simpa using hk
        simp [hk, hk']
      · have hk' : ¬ q1 = key := by simpa using hk
        simp [hk, hk', dlookup]
    · have hq' : ¬ q1 = k := by simpa using hq
      rw [if_neg hq, dlookup]
      by_cases hk : q1 == key
      · have hk' : q1 = key := by simpa using hk
        have hkk : ¬ k = key := fun h => hq' (by rw [hk', h])
        simp [hk, hkk, dlookup]
      · simp [hk, ih, dlookup]

theorem resolveDef_keep (existing localT glob : List (String × String)) (k v : String)
    (hk : dlookup existing k = some v) (h1 : v ≠ "TODO") (h2 : v ≠ "") :
    resolveDef existing localT glob k = v := by
  rw [resolveDef, hk]
  simp [h1, h2]

theorem resolveKeyed_keep (existing localT glob : List (String × String)) (k v : String)
    (hk : dlookup existing k = some v) (h1 : v ≠ "TODO") (h2 : v ≠ "") :
    resolveKeyed existing localT glob k = v := by
  rw [resolveKeyed, hk]
  simp [h1, h2]

theorem resolveDef_fb (existing localT glob : List (String × String)) (k : String)
    (hk : dlookup existing k = none ∨ dlookup existing k = some "TODO") :
    resolveDef existing localT glob k = archiveFallbackDef localT glob k "TODO" := by
  rcases hk with hk | hk <;> rw [resolveDef, hk] <;> simp

theorem resolveDef_fb_empty (existing localT glob : List (String × String)) (k : String)
    (hk : dlookup existing k = some "") :
    resolveDef existing localT glob k = archiveFallbackDef localT glob k "" := by
  rw [resolveDef, hk]
  simp

theorem fb_local {localT glob : List (String × String)} {k lv : String} (v : String)
    (hl : dlookup localT k = some lv) :
    archiveFallbackDef localT glob k v = lv := by
  simp [archiveFallbackDef, hl]

theorem fb_glob {localT glob : List (String × String)} {k gv : String} (v : String)
    (hl : dlookup localT k = none) (hg : dlookup glob k = some gv) :
    archiveFallbackDef localT glob k v = gv := by
  simp [archiveFallbackDef, hl, hg]

theorem fb_syn_baseDesc {localT glob : List (String × String)} {k sv : String} (v : String)
    (hl : dlookup localT k = none) (hg : dlookup glob k = none)
    (he : pyEndsWith k ".baseDesc" = true)
    (hs : dlookup glob (pyReplace k ".baseDesc" ".description") = some sv) :
    archiveFallbackDef localT glob k v = sv := by
  simp [archiveFallbackDef, hl, hg, he, hs]

theorem fb_syn_description {localT glob : List (String × String)} {k sv : String} (v : String)
    (hl : dlookup localT k = none) (hg : dlookup glob k = none)
    (h1 : (pyEndsWith k ".baseDesc"
      && (dlookup glob (pyReplace k ".baseDesc" ".description")).isSome) = false)
    (he : pyEndsWith k ".description" = true)
    (hs : dlookup glob (pyReplace k ".description" ".baseDesc") = some sv) :
    archiveFallbackDef localT glob k v = sv := by
  simp [archiveFallbackDef, hl, hg, h1, he, hs]

theorem fb_syn_title {localT glob : List (String × String)} {k sv : String} (v : String)
    (hl : dlookup localT k = none) (hg : dlookup glob k = none)
    (h1 : (pyEndsWith k ".baseDesc"
      && (dlookup glob (pyReplace k ".baseDesc" ".description")).isSome) = false)
    (h2 : (pyEndsWith k ".description"
      && (dlookup glob (pyReplace k ".description" ".baseDesc")).isSome) = false)
    (he : pyEndsWith k ".title" = true)
    (hs : dlookup glob (pyReplace k ".title" ".label") = some sv) :
    archiveFallbackDef localT glob k v = sv := by
  simp [archiveFallbackDef, hl, hg, h1, h2, he, hs]

theorem fb_syn_label {localT glob : List (String × String)} {k sv : String} (v : String)
    (hl : dlookup localT k = none) (hg : dlookup glob k = none)
    (h1 : (pyEndsWith k ".baseDesc"
      && (dlookup glob (pyReplace k ".baseDesc" ".description")).isSome) = false)
    (h2 : (pyEndsWith k ".description"
      && (dlookup glob (pyReplace k ".description" ".baseDesc")).isSome) = false)
    (h3 : (pyEndsWith k ".title"
      && (dlookup glob (pyReplace k ".title" ".label")).isSome) = false)
    (he : pyEndsWith k ".label" = true)
    (hs : dlookup glob (pyReplace k ".label" ".title") = some sv) :
    archiveFallbackDef localT glob k v = sv := by
  simp [archiveFallbackDef, hl, hg, h1, h2, h3, he, hs]

theorem fb_miss {localT glob : List (String × String)} {k : String} (v : String)
    (hl : dlookup localT k = none) (hg : dlookup glob k = none)
    (h1 : (pyEndsWith k ".baseDesc"
      && (dlookup glob (pyReplace k ".baseDesc" ".description")).isSome) = false)
    (h2 : (pyEndsWith k ".description"
      && (dlookup glob (pyReplace k ".description" ".baseDesc")).isSome) = false)
    (h3 : (pyEndsWith k ".title"
      && (dlookup glob (pyReplace k ".title" ".label")).isSome) = false)
    (h4 : (pyEndsWith k ".label"
      && (dlookup glob (pyReplace k ".label" ".title")).isSome) = false) :
    archiveFallbackDef localT glob k v = v := by
  simp [archiveFallbackDef, hl, hg, h1, h2, h3, h4]

theorem saveDef_lives_key_map (defType : String) (recover : Bool)
    (entries glob english localT existing : List (String × String)) :
    (saveDefDoc defType recover entries glob english localT existing).lives.map DocEntry.key
      = usedKeysDef defType recover entries glob english := by
  simp [saveDefDoc, usedKeysDef, List.map_map]

theorem contains_iff_mem (l : List String) (a : String) :
    l.contains a = true ↔ a ∈ l := by
  simp [List.contains]

/-! ## Claim theorems -/

theorem saveDef_preserve (defType : String) (recover : Bool)
    (entries glob english localT existing : List (String × String)) (k v : String)
    (hk : dlookup existing k = some v) (hne : v ≠ "") (hnp : v ≠ "TODO") :
    (∀ e ∈ (saveDefDoc defType recover entries glob english localT existing).lives,
        e.key = k → e.value = v)
      ∧ (k ∈ (saveDefDoc defType recover entries glob english localT existing).lives.map
            DocEntry.key
        ∨ (k, v) ∈ (saveDefDoc defType recover entries glob english localT
            existing).orphans) := by
  constructor
  · intro e he hek
    simp only [saveDefDoc, List.mem_map] at he
    obtain ⟨pe, _hpe, rfl⟩ := he
    have hek' : pe.key = k := hek
    show resolveDef existing localT glob pe.key = v
    rw [hek']
    exact resolveDef_keep existing localT glob k v hk hnp hne
  · by_cases hc : ((processedEntries defType recover entries glob english).map
        PEntry.key).contains k
    · left
      rw [saveDef_lives_key_map, usedKeysDef]
      exact (contains_iff_mem _ _).mp hc
    · right
      have horr : (saveDefDoc defType recover entries glob english localT
            existing).orphans
          = existing.filter (fun p =>
              !(((processedEntries defType recover entries glob english).map
                PEntry.key).contains p.1)) := rfl
      have hb : (((processedEntries defType recover entries glob english).map
          PEntry.key).contains k) = false := by
        cases h : (((processedEntries defType recover entries glob english).map
            PEntry.key).contains k)
        · rfl
        · exact absurd h hc
      rw [horr, List.mem_filter]
      refine ⟨dlookup_mem hk, ?_⟩
      show (!((List.map PEntry.key (processedEntries defType recover entries glob
        english)).contains k)) = true
      rw [hb]
      rfl

theorem saveKeyed_preserve (kentries klocal kglob kexisting : List (String × String))
    (k v : String)
    (hk2 : dlookup kexisting k = some v) (hne : v ≠ "") (hnp : v ≠ "TODO") :
    (∀ e ∈ (saveKeyedDoc kentries klocal kglob kexisting).lives,
        e.key = k → e.value = v)
      ∧ (k ∈ (saveKeyedDoc kentries klocal kglob kexisting).lives.map DocEntry.key
        ∨ (k, v) ∈ (saveKeyedDoc kentries klocal kglob kexisting).orphans) := by
  constructor
  · intro e he hek
    simp only [saveKeyedDoc, List.mem_map] at he
    obtain ⟨pe, _hpe, rfl⟩ := he
    have hek' : pe.1 = k := hek
    show resolveKeyed kexisting klocal kglob pe.1 = v
    rw [hek']
    exact resolveKeyed_keep kexisting klocal kglob k v hk2 hnp hne
  · by_cases hc : ((kentries.map Prod.fst).contains k)
    · left
      have hmem := (contains_iff_mem _ _).mp hc
      simp only [saveKeyedDoc, List.map_map, List.mem_map] at hmem ⊢
      obtain ⟨p, hp, hpk⟩ := hmem
      exact ⟨p, hp, hpk⟩
    · right
      have horr : (saveKeyedDoc kentries klocal kglob kexisting).orphans
          = kexisting.filter (fun p =>
              !((kentries.map Prod.fst).contains p.1)) := rfl
      have hb : ((kentries.map Prod.fst).contains k) = false := by
        cases h : ((kentries.map Prod.fst).contains k)
        · rfl
        · exact absurd h hc
      rw [horr, List.mem_filter]
      refine ⟨dlookup_mem hk2, ?_⟩
      show (!((List.map Prod.fst kentries).contains k)) = true
      rw [hb]
      rfl

/-- Claim C1: translation preservation.  For every key whose parsed prior
output value is non-empty and differs from the placeholder `"TODO"`, the merge
writes exactly that prior value: every live record the DefInjected or Keyed
writer produces for that key carries the prior value (never an archive value
or the placeholder), and the key itself appears in the new document either as
such a live record or, when the fresh derivation no longer produces the key,
as an orphan record holding the same value. -/
theorem claim_C1_translation_preservation
    (defType : String) (recover : Bool)
    (entries glob english localT existing : List (String × String))
    (kentries klocal kglob kexisting : List (String × String))
    (k v : String)
    (hk : dlookup existing k = some v) (hne : v ≠ "") (hnp : v ≠ "TODO")
    (hk2 : dlookup kexisting k = some v) :
    ((∀ e ∈ (saveDefDoc defType recover entries glob english localT existing).lives,
        e.key = k → e.value = v)
      ∧ (k ∈ (saveDefDoc defType recover entries glob english localT existing).lives.map
            DocEntry.key
        ∨ (k, v) ∈ (saveDefDoc defType recover entries glob english localT existing).orphans))
    ∧ ((∀ e ∈ (saveKeyedDoc kentries klocal kglob kexisting).lives,
        e.key = k → e.value = v)
      ∧ (k ∈ (saveKeyedDoc kentries klocal kglob kexisting).lives.map DocEntry.key
        ∨ (k, v) ∈ (saveKeyedDoc kentries klocal kglob kexisting).orphans)) :=
  ⟨saveDef_preserve defType recover entries glob english localT existing k v hk hne hnp,
   saveKeyed_preserve kentries klocal kglob kexisting k v hk2 hne hnp⟩

/-- Claim C1 witness: a concrete instance with one fresh key, a prior human
translation `"Hola"`, and archives offering a competing value. -/
theorem claim_C1_witness :
    (dlookup [("K.label", "Hola")] "K.label" = some "Hola" ∧ "Hola" ≠ "" ∧ "Hola" ≠ "TODO")
    ∧ ((∀ e ∈ (saveDefDoc "ThingDef" false [("K.label", "Hello")] [("K.label", "Archivo")]
          [] [("K.label", "Local")] [("K.label", "Hola")]).lives,
        e.key = "K.label" → e.value = "Hola")
      ∧ (("K.label" ∈ (saveDefDoc "ThingDef" false [("K.label", "Hello")]
            [("K.label", "Archivo")] [] [("K.label", "Local")]
            [("K.label", "Hola")]).lives.map DocEntry.key
        ∨ ("K.label", "Hola") ∈ (saveDefDoc "ThingDef" false [("K.label", "Hello")]
            [("K.label", "Archivo")] [] [("K.label", "Local")]
            [("K.label", "Hola")]).orphans))) := by
  refine ⟨⟨by decide, by decide, by decide⟩, ?_⟩
  exact (claim_C1_translation_preservation "ThingDef" false [("K.label", "Hello")]
    [("K.label", "Archivo")] [] [("K.label", "Local")] [("K.label", "Hola")]
    [("K.label", "Hello")] [] [] [("K.label", "Hola")] "K.label" "Hola"
    (by decide) (by decide) (by decide) (by decide)).1

/-- Claim C3 counterexample: the claim states the merge fills an untranslated
key "from the local (mirrored sub-path) archive if the key is there, else from
the global archive".  For the Keyed merge this is false: with the key present
in the local archive (value `"X"`) but absent from the global archive, the
code leaves the placeholder `"TODO"` instead of writing `"X"`, because the
whole archive block is guarded by membership in the global index
(extractor.py line 725). -/
theorem claim_C3_counterexample :
    dlookup [("K", "X")] "K" = some "X"
      ∧ resolveKeyed [] [("K", "X")] [] "K" = "TODO"
      ∧ resolveKeyed [] [("K", "X")] [] "K" ≠ "X" := by
  refine ⟨by decide, by decide, by decide⟩

/-- Claim C3 (amended): fallback resolution order.  For every fresh key whose
existing-output value is absent or exactly `"TODO"` (or empty), DefInjected
fills from the local archive if the key is there, else from the global
archive, else from the global archive via the two-way synonym substitutions
`baseDesc↔description` and `title↔label` (applied by `str.replace` to every
occurrence of the dotted fragment, guarded by an `endswith` test, in that
fixed order), else keeps the incoming value (`"TODO"` when the key was absent
or the placeholder; an empty prior value stays empty).  Keyed consults the
archives only when the key is in the global index; within that block the
local archive takes priority over the global one; otherwise the incoming
value is kept even when the key is present in the local archive. -/
theorem claim_C3_amended_fallback_order
    (existing localT glob : List (String × String)) (k lv gv sv : String) :
    (untranslatedAt existing k → dlookup localT k = some lv →
      resolveDef existing localT glob k = lv)
    ∧ (untranslatedAt existing k → dlookup localT k = none → dlookup glob k = some gv →
      resolveDef existing localT glob k = gv)
    ∧ (untranslatedAt existing k → dlookup localT k = none → dlookup glob k = none →
      pyEndsWith k ".baseDesc" = true →
      dlookup glob (pyReplace k ".baseDesc" ".description") = some sv →
      resolveDef existing localT glob k = sv)
    ∧ (untranslatedAt existing k → dlookup localT k = none → dlookup glob k = none →
      (pyEndsWith k ".baseDesc"
        && (dlookup glob (pyReplace k ".baseDesc" ".description")).isSome) = false →
      pyEndsWith k ".description" = true →
      dlookup glob (pyReplace k ".description" ".baseDesc") = some sv →
      resolveDef existing localT glob k = sv)
    ∧ (untranslatedAt existing k → dlookup localT k = none → dlookup glob k = none →
      (pyEndsWith k ".baseDesc"
        && (dlookup glob (pyReplace k ".baseDesc" ".description")).isSome) = false →
      (pyEndsWith k ".description"
        && (dlookup glob (pyReplace k ".description" ".baseDesc")).isSome) = false →
      pyEndsWith k ".title" = true →
      dlookup glob (pyReplace k ".title" ".label") = some sv →
      resolveDef existing localT glob k = sv)
    ∧ (untranslatedAt existing k → dlookup localT k = none → dlookup glob k = none →
      (pyEndsWith k ".baseDesc"
        && (dlookup glob (pyReplace k ".baseDesc" ".description")).isSome) = false →
      (pyEndsWith k ".description"
        && (dlookup glob (pyReplace k ".description" ".baseDesc")).isSome) = false →
      (pyEndsWith k ".title"
        && (dlookup glob (pyReplace k ".title" ".label")).isSome) = false →
      pyEndsWith k ".label" = true →
      dlookup glob (pyReplace k ".label" ".title") = some sv →
      resolveDef existing localT glob k = sv)
    ∧ ((dlookup existing k = none ∨ dlookup existing k = some "TODO") →
      dlookup localT k = none → dlookup glob k = none →
      (pyEndsWith k ".baseDesc"
        && (dlookup glob (pyReplace k ".baseDesc" ".description")).isSome) = false →
      (pyEndsWith k ".description"
        && (dlookup glob (pyReplace k ".description" ".baseDesc")).isSome) = false →
      (pyEndsWith k ".title"
        && (dlookup glob (pyReplace k ".title" ".label")).isSome) = false →
      (pyEndsWith k ".label"
        && (dlookup glob (pyReplace k ".label" ".title")).isSome) = false →
      resolveDef existing localT glob k = "TODO")
    ∧ (dlookup existing k = some "" →
      dlookup localT k = none → dlookup glob k = none →
      (pyEndsWith k ".baseDesc"
        && (dlookup glob (pyReplace k ".baseDesc" ".description")).isSome) = false →
      (pyEndsWith k ".description"
        && (dlookup glob (pyReplace k ".description" ".baseDesc")).isSome) = false →
      (pyEndsWith k ".title"
        && (dlookup glob (pyReplace k ".title" ".label")).isSome) = false →
      (pyEndsWith k ".label"
        && (dlookup glob (pyReplace k ".label" ".title")).isSome) = false →
      resolveDef existing localT glob k = "")
    ∧ (untranslatedAt existing k → (dlookup glob k).isSome = true → dlookup localT k = some lv →
      resolveKeyed existing localT glob k = lv)
    ∧ (untranslatedAt existing k → dlookup glob k = some gv → dlookup localT k = none →
      resolveKeyed existing localT glob k = gv)
    ∧ ((dlookup existing k = none ∨ dlookup existing k = some "TODO") →
      dlookup glob k = none →
      resolveKeyed existing localT glob k = "TODO")
    ∧ (dlookup existing k = some "" → dlookup glob k = none →
      resolveKeyed existing localT glob k = "") := by
  have hfall : ∀ w : String, untranslatedAt existing k → resolveDef existing localT glob k
      = archiveFallbackDef localT glob k (if dlookup existing k = some "" then "" else "TODO") := by
    intro _w hu
    rcases hu with h | h | h
    · rw [resolveDef_fb existing localT glob k (Or.inl h)]
      rw [if_neg (by rw [h]; exact fun hh => Option.noConfusion hh)]
    · rw [resolveDef_fb existing localT glob k (Or.inr h)]
      rw [if_neg (by rw [h]; intro hh; exact absurd (Option.some.inj hh) (by decide))]
    · rw [resolveDef_fb_empty existing localT glob k h, if_pos h]
  refine ⟨?_, ?_, ?_, ?_, ?_, ?_, ?_, ?_, ?_, ?_, ?_, ?_⟩
  · intro hu hl
    rw [hfall "" hu]
    exact fb_local _ hl
  · intro hu hl hg
    rw [hfall "" hu]
    exact fb_glob _ hl hg
  · intro hu hl hg he hs
    rw [hfall "" hu]
    exact fb_syn_baseDesc _ hl hg he hs
  · intro hu hl hg h1 he hs
    rw [hfall "" hu]
    exact fb_syn_description _ hl hg h1 he hs
  · intro hu hl hg h1 h2 he hs
    rw [hfall "" hu]
    exact fb_syn_title _ hl hg h1 h2 he hs
  · intro hu hl hg h1 h2 h3 he hs
    rw [hfall "" hu]
    exact fb_syn_label _ hl hg h1 h2 h3 he hs
  · intro hu hl hg h1 h2 h3 h4
    rw [resolveDef_fb existing localT glob k hu]
    exact fb_miss _ hl hg h1 h2 h3 h4
  · intro hu hl hg h1 h2 h3 h4
    rw [resolveDef_fb_empty existing localT glob k hu]
    exact fb_miss _ hl hg h1 h2 h3 h4
  · intro hu hg hl
    rcases hu with h | h | h <;> rw [resolveKeyed, h] <;> simp [hg, hl]
  · intro hu hg hl
    rcases hu with h | h | h <;> rw [resolveKeyed, h] <;> simp [hg, hl]
  · intro hu hg
    rcases hu with h | h <;> rw [resolveKeyed, h] <;> simp [hg]
  · intro hu hg
    rw [resolveKeyed, hu]
    simp [hg]

/-- Claim C3 witness: concrete instances of the amended chain — local priority
for DefInjected, the `baseDesc → description` synonym fallback, and the
Keyed global-archive hit. -/
theorem claim_C3_witness :
    resolveDef [] [("A.baseDesc", "L")] [("A.baseDesc", "G")] "A.baseDesc" = "L"
    ∧ resolveDef [] [] [("A.description", "D")] "A.baseDesc" = "D"
    ∧ resolveKeyed [] [] [("B", "G2")] "B" = "G2" := by
  refine ⟨?_, ?_, ?_⟩
  · exact (claim_C3_amended_fallback_order [] [("A.baseDesc", "L")] [("A.baseDesc", "G")]
      "A.baseDesc" "L" "G" "X").1 (Or.inl (by decide)) (by decide)
  · exact (claim_C3_amended_fallback_order [] [] [("A.description", "D")]
      "A.baseDesc" "L" "G" "D").2.2.1 (Or.inl (by decide)) (by decide) (by decide)
      (by decide) (by decide)
  · exact (claim_C3_amended_fallback_order [] [] [("B", "G2")]
      "B" "L" "G2" "X").2.2.2.2.2.2.2.2.2.1 (Or.inl (by decide)) (by decide) (by decide)

/-- Claim C4: blacklist precedence.  For every child element, if any blacklist
entry is a case-insensitive substring of its tag, the classifier rejects it
and no entry is emitted for it — whatever the whitelist says and whether or
not it is a list item of a `rulesStrings` list. -/
theorem claim_C4_blacklist_precedence
    (bl wl : List String) (parentTag : String) (child : XNode) (newPath : String)
    (b : String) (hb : b ∈ bl) (hsub : substrCI b child.tag = true) :
    shouldEmit bl wl child.tag (parentTag == "rulesStrings" && child.tag == "li") = false
    ∧ emitChild bl wl parentTag child newPath = [] := by
  have hany : (bl.any (fun x => substrCI x child.tag)) = true :=
    List.any_eq_true.mpr ⟨b, hb, hsub⟩
  have hse : ∀ r : Bool, shouldEmit bl wl child.tag r = false := by
    intro r
    rw [shouldEmit, if_pos hany]
  refine ⟨hse _, ?_⟩
  rw [emitChild]
  split <;> simp [hse]

/-- Claim C4 witness: the blacklisted leaf `commandTexture` carries text and
its name also matches the whitelist entry `text` as a substring, yet nothing
is emitted. -/
theorem claim_C4_witness :
    "commandTexture" ∈ blacklisted_tags
    ∧ substrCI "commandTexture" (XNode.mk "commandTexture" (some "UI/Icon") []).tag = true
    ∧ substrCI "text" "commandTexture" = true
    ∧ emitChild blacklisted_tags translatable_tags "ThingDef"
        (XNode.mk "commandTexture" (some "UI/Icon") []) "D.commandTexture" = [] := by
  refine ⟨by decide, by decide, by decide, ?_⟩
  exact (claim_C4_blacklist_precedence blacklisted_tags translatable_tags "ThingDef"
    (XNode.mk "commandTexture" (some "UI/Icon") []) "D.commandTexture"
    "commandTexture" (by decide) (by decide)).2

theorem load_archive_step_good (acc : List (String × String))
    (it : String × Option String)
    (hacc : ∀ p ∈ acc, p.1 ≠ "" ∧ p.2 ≠ "" ∧ pyUpper p.2 ≠ "TODO") :
    ∀ p ∈ (match it.2 with
      | some raw =>
        if it.1 != "" && raw != "" then
          if pyStrip raw != "" && pyUpper (pyStrip raw) != "TODO" then
            dinsert acc it.1 (pyStrip raw)
          else acc
        else acc
      | none => acc),
      p.1 ≠ "" ∧ p.2 ≠ "" ∧ pyUpper p.2 ≠ "TODO" := by
  obtain ⟨tag1, txt⟩ := it
  cases txt with
  | none => exact hacc
  | some raw =>
    intro p hp
    simp only at hp
    by_cases h1 : (tag1 != "" && raw != "") = true
    · rw [if_pos h1] at hp
      by_cases h2 : (pyStrip raw != "" && pyUpper (pyStrip raw) != "TODO") = true
      · rw [if_pos h2] at hp
        rcases mem_dinsert hp with h | h
        · subst h
          have h1' := h1
          have h2' := h2
          simp only [Bool.and_eq_true, bne_iff_ne, ne_eq] at h1' h2'
          exact ⟨h1'.1, h2'.1, h2'.2⟩
        · exact hacc p h
      · rw [if_neg h2] at hp
        exact hacc p hp
    · rw [if_neg h1] at hp
      exact hacc p hp

theorem load_archive_good (items : List (String × Option String)) :
    ∀ p ∈ load_archive_translations items,
      p.1 ≠ "" ∧ p.2 ≠ "" ∧ pyUpper p.2 ≠ "TODO" := by
  have main : ∀ (its : List (String × Option String)) (acc : List (String × String)),
      (∀ p ∈ acc, p.1 ≠ "" ∧ p.2 ≠ "" ∧ pyUpper p.2 ≠ "TODO") →
      ∀ p ∈ its.foldl (fun m it => match it.2 with
        | some raw =>
          if it.1 != "" && raw != "" then
            if pyStrip raw != "" && pyUpper (pyStrip raw) != "TODO" then
              dinsert m it.1 (pyStrip raw)
            else m
          else m
        | none => m) acc,
      p.1 ≠ "" ∧ p.2 ≠ "" ∧ pyUpper p.2 ≠ "TODO" := by
    intro its
    induction its with
    | nil => intro acc hacc p hp; exact hacc p hp
    | cons it rest ih =>
      intro acc hacc p hp
      rw [List.foldl_cons] at hp
      exact ih _ (load_archive_step_good acc it hacc) p hp
  intro p hp
  rw [load_archive_translations] at hp
  exact main items [] (fun q hq => absurd hq (List.not_mem_nil q)) p hp

/-- Claim C10: placeholder-detection asymmetry.  The merge compares an
existing output value to the exact string `"TODO"` case-sensitively (and to
the empty string), while the archive index builder excludes placeholder
values case-insensitively; hence a prior value equal to `"TODO"` only under
case folding (such as `"todo"`) is preserved verbatim by both merges — the
archive fallback chain is never consulted for it, whatever the archives hold —
while no value held by a loaded archive index ever case-folds to `"TODO"`. -/
theorem claim_C10_placeholder_asymmetry
    (existing localT glob kexisting klocal kglob : List (String × String)) (k v : String)
    (hk : dlookup existing k = some v) (hk2 : dlookup kexisting k = some v)
    (hfold : pyUpper v = "TODO") (hne : v ≠ "TODO") :
    resolveDef existing localT glob k = v
    ∧ resolveKeyed kexisting klocal kglob k = v
    ∧ (∀ items kk w, dlookup (load_archive_translations items) kk = some w →
        pyUpper w ≠ "TODO") := by
  have hnem : v ≠ "" := by
    intro h
    rw [h] at hfold
    exact absurd hfold (by decide)
  refine ⟨resolveDef_keep existing localT glob k v hk hne hnem,
    resolveKeyed_keep kexisting klocal kglob k v hk2 hne hnem, ?_⟩
  intro items kk w hw
  exact (load_archive_good items _ (dlookup_mem hw)).2.2

/-- Claim C10 witness: the lowercase value `"todo"` survives both merges at a
concrete input even though both archives offer a real translation, and an
archive file holding `"ToDo"` contributes nothing to the loaded index. -/
theorem claim_C10_witness :
    resolveDef [("K", "todo")] [("K", "Real")] [("K", "Real")] "K" = "todo"
    ∧ resolveKeyed [("K", "todo")] [("K", "Real")] [("K", "Real")] "K" = "todo"
    ∧ pyUpper "todo" = "TODO"
    ∧ load_archive_translations [("K", some "ToDo")] = [] := by
  have h := claim_C10_placeholder_asymmetry [("K", "todo")] [("K", "Real")] [("K", "Real")]
    [("K", "todo")] [("K", "Real")] [("K", "Real")] "K" "todo"
    (by decide) (by decide) (by decide) (by decide)
  exact ⟨h.1, h.2.1, by decide, by decide⟩

theorem extraEntries_eq (entries glob english : List (String × String)) :
    extraEntries entries glob english
      = (glob.filter (fun p => hasDot p.1 && (presentDefs entries).contains (defPart p.1)
          && !((entries.map Prod.fst).contains p.1))).map
          (fun p => (p.1, (dlookup english p.1).getD "(Implicit/Inherited)")) := by
  have main : ∀ (g acc : List (String × String)),
      g.foldl (fun acc p =>
        if hasDot p.1 && (presentDefs entries).contains (defPart p.1)
            && !((entries.map Prod.fst).contains p.1) then
          acc ++ [(p.1, (dlookup english p.1).getD "(Implicit/Inherited)")]
        else acc) acc
      = acc ++ (g.filter (fun p => hasDot p.1
          && (presentDefs entries).contains (defPart p.1)
          && !((entries.map Prod.fst).contains p.1))).map
          (fun p => (p.1, (dlookup english p.1).getD "(Implicit/Inherited)")) := by
    intro g
    induction g with
    | nil => intro acc; simp
    | cons p g' ih =>
      intro acc
      rw [List.foldl_cons]
      by_cases hc : (hasDot p.1 && (presentDefs entries).contains (defPart p.1)
          && !((entries.map Prod.fst).contains p.1)) = true
      · rw [if_pos hc, ih, List.filter_cons, if_pos hc]
        simp
      · rw [if_neg hc, ih, List.filter_cons, if_neg hc]
  rw [extraEntries, main glob []]
  simp

/-- Claim C7: implicit-key recovery.  With the option off the fresh entries
pass through unchanged; with it on, exactly the dotted global-archive keys
whose definition-name component (the part before the first dot) matches a
fresh definition but whose exact key is not fresh are appended, each valued
by the English archive when the key is present there and otherwise by the
literal marker `"(Implicit/Inherited)"`; no other entries are added. -/
theorem claim_C7_implicit_recovery (entries glob english : List (String × String)) :
    entriesAfterRecover false entries glob english = entries
    ∧ entriesAfterRecover true entries glob english
        = entries ++ extraEntries entries glob english
    ∧ extraEntries entries glob english
        = (glob.filter (fun p => hasDot p.1
            && (presentDefs entries).contains (defPart p.1)
            && !((entries.map Prod.fst).contains p.1))).map
            (fun p => (p.1, (dlookup english p.1).getD "(Implicit/Inherited)"))
    ∧ (∀ kk vv, (kk, vv) ∈ glob →
        (hasDot kk && (presentDefs entries).contains (defPart kk)
          && !((entries.map Prod.fst).contains kk)) = true →
        (kk, (dlookup english kk).getD "(Implicit/Inherited)")
          ∈ extraEntries entries glob english)
    ∧ (∀ c ∈ extraEntries entries glob english, ∃ vv, (c.1, vv) ∈ glob
        ∧ (hasDot c.1 && (presentDefs entries).contains (defPart c.1)
            && !((entries.map Prod.fst).contains c.1)) = true
        ∧ c.2 = (dlookup english c.1).getD "(Implicit/Inherited)") := by
  refine ⟨rfl, rfl, extraEntries_eq entries glob english, ?_, ?_⟩
  · intro kk vv hmem hcond
    rw [extraEntries_eq]
    refine List.mem_map.mpr ⟨(kk, vv), ?_, rfl⟩
    exact List.mem_filter.mpr ⟨hmem, hcond⟩
  · intro c hc
    rw [extraEntries_eq] at hc
    obtain ⟨p, hp, rfl⟩ := List.mem_map.mp hc
    have hf := List.mem_filter.mp hp
    exact ⟨p.2, hf.1, hf.2, rfl⟩

/-- Claim C7 witness: `Foo.description` is recovered from the global archive
for the fresh definition `Foo` (whose exact fresh key is only `Foo.label`),
valued from the English archive; the dotless archive key and the foreign
definition `Bar` contribute nothing. -/
theorem claim_C7_witness :
    entriesAfterRecover true [("Foo.label", "a")]
        [("Foo.description", "d"), ("Bar.label", "b"), ("Foo.label", "x"), ("NoDot", "n")]
        [("Foo.description", "ED")]
      = [("Foo.label", "a"), ("Foo.description", "ED")]
    ∧ ("Foo.description", "ED") ∈ extraEntries [("Foo.label", "a")]
        [("Foo.description", "d"), ("Bar.label", "b"), ("Foo.label", "x"), ("NoDot", "n")]
        [("Foo.description", "ED")] := by
  refine ⟨by decide, ?_⟩
  have h := (claim_C7_implicit_recovery [("Foo.label", "a")]
    [("Foo.description", "d"), ("Bar.label", "b"), ("Foo.label", "x"), ("NoDot", "n")]
    [("Foo.description", "ED")]).2.2.2.1 "Foo.description" "d" (by decide) (by decide)
  simpa using h

/-- Claim C8 counterexample: the claim says the per-file action is
`Generated` exactly when no prior output file existed.  But the code reports
`"Actualizado" if existing_translations else "Generado"`, testing the parsed
dictionary for emptiness: a prior file that exists but parses to no readable
entries (for instance an empty `LanguageData`, or an unparseable file whose
error is swallowed) is reported as `Generado`. -/
theorem claim_C8_counterexample :
    actionFor (Prior.parsed []) = "Generado"
    ∧ Prior.parsed [] ≠ Prior.absent
    ∧ actionFor Prior.unreadable = "Generado"
    ∧ Prior.unreadable ≠ Prior.absent := by
  refine ⟨by decide, fun h => Prior.noConfusion h, by decide, fun h => Prior.noConfusion h⟩

/-- Claim C8 (amended): the reported action is `Actualizado` (updated) if and
only if the prior output state yielded at least one readable parsed entry;
it is `Generado` (generated) when the file was absent, unreadable, or parsed
to an empty entry set. -/
theorem claim_C8_amended_action (p : Prior) :
    (actionFor p = "Generado" ↔ readExisting p = [])
    ∧ (actionFor p = "Actualizado" ↔ readExisting p ≠ [])
    ∧ (actionFor p = "Generado" ↔
        (p = Prior.absent ∨ p = Prior.unreadable ∨ p = Prior.parsed [])) := by
  cases p with
  | absent => exact ⟨by simp [actionFor, readExisting], by simp [actionFor, readExisting],
      by simp [actionFor, readExisting]⟩
  | unreadable => exact ⟨by simp [actionFor, readExisting], by simp [actionFor, readExisting],
      by simp [actionFor, readExisting]⟩
  | parsed m =>
    cases m with
    | nil => exact ⟨by simp [actionFor, readExisting], by simp [actionFor, readExisting],
        by simp [actionFor, readExisting]⟩
    | cons q rest =>
      refine ⟨by simp [actionFor, readExisting], by simp [actionFor, readExisting], ?_⟩
      simp [actionFor, readExisting]

/-- Claim C9 counterexample: the claim demands that *every* path segment
equal (case-insensitively) to `Mods`, with its follower, be removed.  The
code deletes only the first such pair: a second wrapper pair survives. -/
theorem claim_C9_counterexample :
    simplify_mods ["Mods", "A", "Mods", "B"] = ["Mods", "B"]
    ∧ pyLower "Mods" = "mods"
    ∧ simplify_mods ["Mods", "A", "Mods", "B"] ≠ [] := by
  refine ⟨by decide, by decide, by decide⟩

/-- Claim C9 (amended): root flattening.  The transform is a pure function of
the path-segment tuple; when no segment lower-cases to `mods` the path is
unchanged; when the first such segment has a following segment, exactly that
one pair is deleted (later `Mods` pairs survive); when the first such segment
is the last segment, the path is unchanged. -/
theorem claim_C9_amended_flatten :
    (∀ parts : List String, (∀ s ∈ parts, pyLower s ≠ "mods") →
      simplify_mods parts = parts)
    ∧ (∀ (parts : List String) (i : Nat),
        List.findIdx? (fun p => pyLower p == "mods") parts = some i →
        i + 1 < parts.length →
        simplify_mods parts = parts.take i ++ parts.drop (i + 2))
    ∧ (∀ (parts : List String) (i : Nat),
        List.findIdx? (fun p => pyLower p == "mods") parts = some i →
        ¬ i + 1 < parts.length →
        simplify_mods parts = parts) := by
  refine ⟨?_, ?_, ?_⟩
  · intro parts h
    have hnone : List.findIdx? (fun p => pyLower p == "mods") parts = none := by
      rw [List.findIdx?_eq_none_iff]
      intro x hx
      simp [h x hx]
    rw [simplify_mods, hnone]
  · intro parts i hfind hlen
    rw [simplify_mods, hfind]
    exact if_pos hlen
  · intro parts i hfind hlen
    rw [simplify_mods, hfind]
    exact if_neg hlen

/-- Claim C9 witness: concrete instances of the three amended cases. -/
theorem claim_C9_witness :
    simplify_mods ["1.5", "Defs"] = ["1.5", "Defs"]
    ∧ simplify_mods ["1.5", "Mods", "Pack", "Defs"] = ["1.5", "Defs"]
    ∧ simplify_mods ["1.5", "mods"] = ["1.5", "mods"] := by
  refine ⟨?_, ?_, ?_⟩
  · exact claim_C9_amended_flatten.1 ["1.5", "Defs"] (by decide)
  · have h := claim_C9_amended_flatten.2.1 ["1.5", "Mods", "Pack", "Defs"] 1
      (by decide) (by decide)
    simpa using h
  · exact claim_C9_amended_flatten.2.2 ["1.5", "mods"] 1 (by decide) (by decide)

theorem listHasSub_nil_needle : ∀ l : List Char, listHasSub l [] = true
  | [] => rfl
  | _ :: t => by rw [listHasSub, listStartsWith]; simp

theorem listStartsWith_append_right : ∀ (l n b : List Char),
    listStartsWith l n = true → listStartsWith (l ++ b) n = true := by
  intro l n
  induction n generalizing l with
  | nil =>
    intro b _
    cases hlb : l ++ b with
    | nil => rfl
    | cons x xs => rfl
  | cons m ms ih =>
    intro b h
    cases l with
    | nil => exact absurd h (by rw [listStartsWith]; simp)
    | cons x xs =>
      rw [listStartsWith] at h
      rw [List.cons_append, listStartsWith]
      simp only [Bool.and_eq_true] at h
      rw [h.1, ih xs b h.2]
      rfl

theorem listHasSub_of_startsWith : ∀ (l n : List Char),
    listStartsWith l n = true → listHasSub l n = true := by
  intro l n h
  cases l with
  | nil =>
    cases n with
    | nil => rfl
    | cons m ms => exact absurd h (by rw [listStartsWith]; simp)
  | cons x xs =>
    rw [listHasSub, h]
    rfl

theorem listHasSub_append_right : ∀ (a b n : List Char),
    listHasSub a n = true → listHasSub (a ++ b) n = true := by
  intro a
  induction a with
  | nil =>
    intro b n h
    rw [listHasSub] at h
    have : n = [] := by simpa using h
    rw [this]
    exact listHasSub_nil_needle _
  | cons x xs ih =>
    intro b n h
    rw [listHasSub] at h
    rw [List.cons_append, listHasSub]
    simp only [Bool.or_eq_true] at h
    rcases h with h | h
    · rw [← List.cons_append]
      rw [listStartsWith_append_right _ _ _ h]
      rfl
    · rw [ih b n h]
      simp

theorem listHasSub_append_left : ∀ (a b n : List Char),
    listHasSub b n = true → listHasSub (a ++ b) n = true := by
  intro a
  induction a with
  | nil => intro b n h; exact h
  | cons x xs ih =>
    intro b n h
    rw [List.cons_append, listHasSub, ih b n h]
    simp

theorem strContains_append_left (a b needle : String)
    (h : strContains b needle = true) : strContains (a ++ b) needle = true := by
  rw [strContains] at h ⊢
  rw [String.data_append]
  exact listHasSub_append_left _ _ _ h

theorem strContains_append_right (a b needle : String)
    (h : strContains a needle = true) : strContains (a ++ b) needle = true := by
  rw [strContains] at h ⊢
  rw [String.data_append]
  exact listHasSub_append_right _ _ _ h

theorem serOrphans_marker (orphans : List (String × String)) (h : orphans ≠ []) :
    strContains (serOrphans orphans) "INUTILIZADO" = true := by
  rw [serOrphans, if_neg (by simpa using h)]
  apply strContains_append_right
  decide

theorem serializeDefInj_marker (doc : OutDoc) (h : doc.orphans ≠ []) :
    strContains (serializeDefInj doc) "INUTILIZADO" = true := by
  rw [serializeDefInj]
  apply strContains_append_right
  apply strContains_append_left
  exact serOrphans_marker doc.orphans h

theorem serializeKeyed_marker (doc : OutDoc) (h : doc.orphans ≠ []) :
    strContains (serializeKeyed doc) "INUTILIZADO" = true := by
  rw [serializeKeyed]
  apply strContains_append_right
  apply strContains_append_left
  exact serOrphans_marker doc.orphans h

theorem saveKeyed_lives_key_map (kentries klocal kglob kexisting : List (String × String)) :
    (saveKeyedDoc kentries klocal kglob kexisting).lives.map DocEntry.key
      = kentries.map Prod.fst := by
  simp [saveKeyedDoc, List.map_map]

/-- Claim C5: orphan retention.  Every key of the parsed prior output that the
fresh processed entry set no longer derives is kept, with its old value, as a
record in the orphan (`INUTILIZADO`) section of the new document — which is
then present and marked in the serialized bytes — and the key does not occur
among the live elements; for both DefInjected and Keyed writers. -/
theorem claim_C5_orphan_retention
    (defType : String) (recover : Bool)
    (entries glob english localT existing : List (String × String))
    (kentries klocal kglob kexisting : List (String × String))
    (k v : String)
    (hk : dlookup existing k = some v)
    (habs : k ∉ usedKeysDef defType recover entries glob english)
    (hk2 : dlookup kexisting k = some v)
    (habs2 : k ∉ kentries.map Prod.fst) :
    ((k, v) ∈ (saveDefDoc defType recover entries glob english localT existing).orphans
      ∧ k ∉ (saveDefDoc defType recover entries glob english localT existing).lives.map
          DocEntry.key
      ∧ strContains (serializeDefInj (saveDefDoc defType recover entries glob english
          localT existing)) "INUTILIZADO" = true)
    ∧ ((k, v) ∈ (saveKeyedDoc kentries klocal kglob kexisting).orphans
      ∧ k ∉ (saveKeyedDoc kentries klocal kglob kexisting).lives.map DocEntry.key
      ∧ strContains (serializeKeyed (saveKeyedDoc kentries klocal kglob kexisting))
          "INUTILIZADO" = true) := by
  have hbD : (((processedEntries defType recover entries glob english).map
      PEntry.key).contains k) = false := by
    cases h : (((processedEntries defType recover entries glob english).map
        PEntry.key).contains k)
    · rfl
    · exact absurd ((contains_iff_mem _ _).mp h) habs
  have hbk : ((kentries.map Prod.fst).contains k) = false := by
    cases h : ((kentries.map Prod.fst).contains k)
    · rfl
    · exact absurd ((contains_iff_mem _ _).mp h) habs2
  have horphD : (k, v) ∈ (saveDefDoc defType recover entries glob english localT
      existing).orphans := by
    have horr : (saveDefDoc defType recover entries glob english localT
          existing).orphans
        = existing.filter (fun p =>
            !(((processedEntries defType recover entries glob english).map
              PEntry.key).contains p.1)) := rfl
    rw [horr, List.mem_filter]
    refine ⟨dlookup_mem hk, ?_⟩
    show (!((List.map PEntry.key (processedEntries defType recover entries glob
      english)).contains k)) = true
    rw [hbD]
    rfl
  have horphk : (k, v) ∈ (saveKeyedDoc kentries klocal kglob kexisting).orphans := by
    have horr : (saveKeyedDoc kentries klocal kglob kexisting).orphans
        = kexisting.filter (fun p => !((kentries.map Prod.fst).contains p.1)) := rfl
    rw [horr, List.mem_filter]
    refine ⟨dlookup_mem hk2, ?_⟩
    show (!((List.map Prod.fst kentries).contains k)) = true
    rw [hbk]
    rfl
  refine ⟨⟨horphD, ?_, ?_⟩, horphk, ?_, ?_⟩
  · rw [saveDef_lives_key_map]
    exact habs
  · exact serializeDefInj_marker _ (List.ne_nil_of_mem horphD)
  · rw [saveKeyed_lives_key_map]
    exact habs2
  · exact serializeKeyed_marker _ (List.ne_nil_of_mem horphk)

/-- Claim C5 witness: the prior key `Old.label` is orphaned by fresh sets
that no longer derive it, in both formats. -/
theorem claim_C5_witness :
    ("Old.label", "Viejo") ∈ (saveDefDoc "ThingDef" false [("New.label", "New")] [] []
        [] [("Old.label", "Viejo")]).orphans
    ∧ "Old.label" ∉ (saveDefDoc "ThingDef" false [("New.label", "New")] [] [] []
        [("Old.label", "Viejo")]).lives.map DocEntry.key
    ∧ strContains (serializeDefInj (saveDefDoc "ThingDef" false [("New.label", "New")]
        [] [] [] [("Old.label", "Viejo")])) "INUTILIZADO" = true
    ∧ ("Old.label", "Viejo") ∈ (saveKeyedDoc [("NewKey", "NewK")] [] []
        [("Old.label", "Viejo")]).orphans := by
  have h := claim_C5_orphan_retention "ThingDef" false [("New.label", "New")] [] [] []
    [("Old.label", "Viejo")] [("NewKey", "NewK")] [] [] [("Old.label", "Viejo")]
    "Old.label" "Viejo" (by decide) (by decide) (by decide) (by decide)
  exact ⟨h.1.1, h.1.2.1, h.1.2.2, h.2.1⟩

theorem parse_fold_keep (g : String → String) (k r : String) :
    ∀ (lives : List DocEntry) (m0 : List (String × String)),
    (∀ e ∈ lives, e.key = k → e.value = r) →
    dlookup m0 k = some (g r) →
    dlookup (lives.foldl (fun m e =>
      if e.key != "" && e.value != "" then dinsert m e.key (g e.value) else m) m0) k
      = some (g r) := by
  intro lives
  induction lives with
  | nil => intro m0 _ h0; exact h0
  | cons e rest ih =>
    intro m0 hall h0
    rw [List.foldl_cons]
    refine ih _ (fun x hx => hall x (List.mem_cons_of_mem _ hx)) ?_
    by_cases hc : (e.key != "" && e.value != "") = true
    · rw [if_pos hc, dlookup_dinsert]
      by_cases hek : e.key = k
      · rw [if_pos hek, hall e (List.mem_cons_self _ _) hek]
      · rw [if_neg hek]
        exact h0
    · rw [if_neg hc]
      exact h0

theorem parse_fold_some (g : String → String) (k r : String) :
    ∀ (lives : List DocEntry) (m0 : List (String × String)),
    (∀ e ∈ lives, e.key = k → e.value = r) →
    (∃ e ∈ lives, e.key = k) →
    k ≠ "" → r ≠ "" →
    dlookup (lives.foldl (fun m e =>
      if e.key != "" && e.value != "" then dinsert m e.key (g e.value) else m) m0) k
      = some (g r) := by
  intro lives
  induction lives with
  | nil => intro m0 _ hex _ _; exact absurd hex (by simp)
  | cons e rest ih =>
    intro m0 hall hex hk hr
    rw [List.foldl_cons]
    by_cases hek : e.key = k
    · have hev : e.value = r := hall e (List.mem_cons_self _ _) hek
      have hc : (e.key != "" && e.value != "") = true := by
        rw [hek, hev]
        simp [hk, hr]
      rw [if_pos hc]
      refine parse_fold_keep g k r rest _
        (fun x hx => hall x (List.mem_cons_of_mem _ hx)) ?_
      rw [dlookup_dinsert, if_pos hek, hev]
    · obtain ⟨e2, he2, hke2⟩ := hex
      have he2r : e2 ∈ rest := by
        rcases List.mem_cons.mp he2 with h | h
        · exact absurd (h ▸ hke2) hek
        · exact h
      exact ih _ (fun x hx => hall x (List.mem_cons_of_mem _ hx)) ⟨e2, he2r, hke2⟩ hk hr

theorem parse_fold_none (g : String → String) (k : String) :
    ∀ (lives : List DocEntry) (m0 : List (String × String)),
    (∀ e ∈ lives, e.key = k → e.value = "" ∨ k = "") →
    dlookup (lives.foldl (fun m e =>
      if e.key != "" && e.value != "" then dinsert m e.key (g e.value) else m) m0) k
      = dlookup m0 k := by
  intro lives
  induction lives with
  | nil => intro m0 _; rfl
  | cons e rest ih =>
    intro m0 hall
    rw [List.foldl_cons]
    rw [ih _ (fun x hx => hall x (List.mem_cons_of_mem _ hx))]
    by_cases hc : (e.key != "" && e.value != "") = true
    · rw [if_pos hc, dlookup_dinsert]
      have hek : ¬ e.key = k := by
        intro hek
        simp only [Bool.and_eq_true, bne_iff_ne, ne_eq] at hc
        rcases hall e (List.mem_cons_self _ _) hek with h | h
        · exact hc.2 h
        · exact hc.1 (hek.trans h)
      rw [if_neg hek]
    · rw [if_neg hc]

theorem parse_mem_keys (g : String → String) :
    ∀ (lives : List DocEntry) (m0 : List (String × String)) (p : String × String),
    p ∈ lives.foldl (fun m e =>
      if e.key != "" && e.value != "" then dinsert m e.key (g e.value) else m) m0 →
    p.1 ∈ lives.map DocEntry.key ∨ p ∈ m0 := by
  intro lives
  induction lives with
  | nil => intro m0 p hp; exact Or.inr hp
  | cons e rest ih =>
    intro m0 p hp
    rw [List.foldl_cons] at hp
    rcases ih _ p hp with h | h
    · exact Or.inl (List.mem_cons_of_mem _ h)
    · by_cases hc : (e.key != "" && e.value != "") = true
      · rw [if_pos hc] at h
        rcases mem_dinsert h with h | h
        · left
          rw [h]
          exact List.mem_cons_self _ _
        · exact Or.inr h
      · rw [if_neg hc] at h
        exact Or.inr h

theorem parseDef_good (doc : OutDoc)
    (hstr : ∀ e ∈ doc.lives, pyStrip e.value = e.value) :
    ∀ p ∈ parseDefDoc doc, p.1 ≠ "" ∧ p.2 ≠ "" ∧ pyStrip p.2 = p.2 := by
  have main : ∀ (lives : List DocEntry) (m0 : List (String × String)),
      (∀ e ∈ lives, pyStrip e.value = e.value) →
      (∀ p ∈ m0, p.1 ≠ "" ∧ p.2 ≠ "" ∧ pyStrip p.2 = p.2) →
      ∀ p ∈ lives.foldl (fun m e =>
        if e.key != "" && e.value != "" then dinsert m e.key (pyStrip e.value) else m) m0,
      p.1 ≠ "" ∧ p.2 ≠ "" ∧ pyStrip p.2 = p.2 := by
    intro lives
    induction lives with
    | nil => intro m0 _ h0 p hp; exact h0 p hp
    | cons e rest ih =>
      intro m0 hstr2 h0 p hp
      rw [List.foldl_cons] at hp
      refine ih _ (fun x hx => hstr2 x (List.mem_cons_of_mem _ hx)) ?_ p hp
      intro q hq
      by_cases hc : (e.key != "" && e.value != "") = true
      · rw [if_pos hc] at hq
        rcases mem_dinsert hq with h | h
        · subst h
          simp only [Bool.and_eq_true, bne_iff_ne, ne_eq] at hc
          have he := hstr2 e (List.mem_cons_self _ _)
          refine ⟨hc.1, ?_, ?_⟩
          · show pyStrip e.value ≠ ""
            rw [he]
            exact hc.2
          · show pyStrip (pyStrip e.value) = pyStrip e.value
            rw [he]
            exact he
        · exact h0 q h
      · rw [if_neg hc] at hq
        exact h0 q hq
  intro p hp
  rw [parseDefDoc, parseDocWith] at hp
  exact main doc.lives [] hstr (fun q hq => absurd hq (List.not_mem_nil q)) p hp

theorem parseKeyed_good (doc : OutDoc) :
    ∀ p ∈ parseKeyedDoc doc, p.1 ≠ "" ∧ p.2 ≠ "" := by
  have main : ∀ (lives : List DocEntry) (m0 : List (String × String)),
      (∀ p ∈ m0, p.1 ≠ "" ∧ p.2 ≠ "") →
      ∀ p ∈ lives.foldl (fun m e =>
        if e.key != "" && e.value != "" then dinsert m e.key e.value else m) m0,
      p.1 ≠ "" ∧ p.2 ≠ "" := by
    intro lives
    induction lives with
    | nil => intro m0 h0 p hp; exact h0 p hp
    | cons e rest ih =>
      intro m0 h0 p hp
      rw [List.foldl_cons] at hp
      refine ih _ ?_ p hp
      intro q hq
      by_cases hc : (e.key != "" && e.value != "") = true
      · rw [if_pos hc] at hq
        rcases mem_dinsert hq with h | h
        · subst h
          simp only [Bool.and_eq_true, bne_iff_ne, ne_eq] at hc
          exact ⟨hc.1, hc.2⟩
        · exact h0 q h
      · rw [if_neg hc] at hq
        exact h0 q hq
  intro p hp
  rw [parseKeyedDoc, parseDocWith] at hp
  exact main doc.lives [] (fun q hq => absurd hq (List.not_mem_nil q)) p hp

theorem getD_stripped (glob : List (String × String)) (x v : String)
    (Hg : ∀ p ∈ glob, pyStrip p.2 = p.2) (hv : pyStrip v = v) :
    pyStrip ((dlookup glob x).getD v) = (dlookup glob x).getD v := by
  cases h : dlookup glob x with
  | none => exact hv
  | some w => exact Hg (x, w) (dlookup_mem h)

theorem fb_stripped (localT glob : List (String × String)) (k v : String)
    (Hl : ∀ p ∈ localT, pyStrip p.2 = p.2) (Hg : ∀ p ∈ glob, pyStrip p.2 = p.2)
    (hv : pyStrip v = v) :
    pyStrip (archiveFallbackDef localT glob k v) = archiveFallbackDef localT glob k v := by
  rw [archiveFallbackDef]
  cases hl : dlookup localT k with
  | some lv => exact Hl (k, lv) (dlookup_mem hl)
  | none =>
    cases hg : dlookup glob k with
    | some gv => exact Hg (k, gv) (dlookup_mem hg)
    | none =>
      by_cases h1 : (pyEndsWith k ".baseDesc"
          && (dlookup glob (pyReplace k ".baseDesc" ".description")).isSome) = true
      · rw [if_pos h1]
        exact getD_stripped glob _ v Hg hv
      · rw [if_neg h1]
        by_cases h2 : (pyEndsWith k ".description"
            && (dlookup glob (pyReplace k ".description" ".baseDesc")).isSome) = true
        · rw [if_pos h2]
          exact getD_stripped glob _ v Hg hv
        · rw [if_neg h2]
          by_cases h3 : (pyEndsWith k ".title"
              && (dlookup glob (pyReplace k ".title" ".label")).isSome) = true
          · rw [if_pos h3]
            exact getD_stripped glob _ v Hg hv
          · rw [if_neg h3]
            by_cases h4 : (pyEndsWith k ".label"
                && (dlookup glob (pyReplace k ".label" ".title")).isSome) = true
            · rw [if_pos h4]
              exact getD_stripped glob _ v Hg hv
            · rw [if_neg h4]
              exact hv

theorem resolveDef_stripped (existing localT glob : List (String × String)) (k : String)
    (Hl : ∀ p ∈ localT, pyStrip p.2 = p.2) (Hg : ∀ p ∈ glob, pyStrip p.2 = p.2)
    (He : ∀ p ∈ existing, pyStrip p.2 = p.2) :
    pyStrip (resolveDef existing localT glob k) = resolveDef existing localT glob k := by
  rw [resolveDef]
  cases hdl : dlookup existing k with
  | none =>
    simp only [Option.getD_none]
    rw [if_pos (by decide)]
    exact fb_stripped localT glob k "TODO" Hl Hg (by decide)
  | some w =>
    simp only [Option.getD_some]
    by_cases hw : (w == "TODO" || w == "") = true
    · rw [if_pos hw]
      exact fb_stripped localT glob k w Hl Hg (He (k, w) (dlookup_mem hdl))
    · rw [if_neg hw]
      exact He (k, w) (dlookup_mem hdl)

theorem resolveDef_getD_congr (e1 e2 localT glob : List (String × String)) (k : String)
    (h : (dlookup e1 k).getD "TODO" = (dlookup e2 k).getD "TODO") :
    resolveDef e1 localT glob k = resolveDef e2 localT glob k := by
  rw [resolveDef, resolveDef, h]

theorem resolveKeyed_getD_congr (e1 e2 localT glob : List (String × String)) (k : String)
    (h : (dlookup e1 k).getD "TODO" = (dlookup e2 k).getD "TODO") :
    resolveKeyed e1 localT glob k = resolveKeyed e2 localT glob k := by
  rw [resolveKeyed, resolveKeyed, h]

theorem dlookup_empty_key_none (m : List (String × String))
    (Hm : ∀ p ∈ m, p.1 ≠ "") : dlookup m "" = none := by
  cases h : dlookup m "" with
  | none => rfl
  | some w => exact absurd rfl (Hm ("", w) (dlookup_mem h))

theorem resolveDef_reread (localT glob m m2 : List (String × String)) (k : String)
    (Hl : ∀ p ∈ localT, pyStrip p.2 = p.2) (Hg : ∀ p ∈ glob, pyStrip p.2 = p.2)
    (Hm : ∀ p ∈ m, p.1 ≠ "" ∧ p.2 ≠ "" ∧ pyStrip p.2 = p.2)
    (Hm2 : dlookup m2 k =
      if k = "" ∨ resolveDef m localT glob k = "" then none
      else some (pyStrip (resolveDef m localT glob k))) :
    resolveDef m2 localT glob k = resolveDef m localT glob k := by
  have hrs : pyStrip (resolveDef m localT glob k) = resolveDef m localT glob k :=
    resolveDef_stripped m localT glob k Hl Hg (fun p hp => (Hm p hp).2.2)
  have hmfb : dlookup m k = none ∨ dlookup m k = some "TODO" ∨
      (∃ w, dlookup m k = some w ∧ w ≠ "TODO" ∧ w ≠ "") := by
    cases h : dlookup m k with
    | none => exact Or.inl rfl
    | some w =>
      by_cases hw : w = "TODO"
      · exact Or.inr (Or.inl (by rw [hw]))
      · exact Or.inr (Or.inr ⟨w, rfl, hw, (Hm (k, w) (dlookup_mem h)).2.1⟩)
  by_cases hke : k = ""
  · subst hke
    have h1 : dlookup m "" = none := dlookup_empty_key_none m (fun p hp => (Hm p hp).1)
    have h2 : dlookup m2 "" = none := by rw [Hm2, if_pos (Or.inl rfl)]
    exact resolveDef_getD_congr m2 m localT glob "" (by rw [h1, h2])
  · by_cases hre : resolveDef m localT glob k = ""
    · have h2 : dlookup m2 k = none := by rw [Hm2, if_pos (Or.inr hre)]
      have hfbm : resolveDef m localT glob k = archiveFallbackDef localT glob k "TODO" := by
        rcases hmfb with h | h | ⟨w, hw, hw1, hw2⟩
        · exact resolveDef_fb m localT glob k (Or.inl h)
        · exact resolveDef_fb m localT glob k (Or.inr h)
        · exact absurd hre (by rw [resolveDef_keep m localT glob k w hw hw1 hw2]; exact hw2)
      rw [resolveDef_fb m2 localT glob k (Or.inl h2), hfbm]
    · have h2 : dlookup m2 k = some (resolveDef m localT glob k) := by
        rw [Hm2, if_neg (by simp [hke, hre]), hrs]
      by_cases hrt : resolveDef m localT glob k = "TODO"
      · have hfbm : resolveDef m localT glob k = archiveFallbackDef localT glob k "TODO" := by
          rcases hmfb with h | h | ⟨w, hw, hw1, hw2⟩
          · exact resolveDef_fb m localT glob k (Or.inl h)
          · exact resolveDef_fb m localT glob k (Or.inr h)
          · exact absurd hrt (by rw [resolveDef_keep m localT glob k w hw hw1 hw2]; exact hw1)
        rw [resolveDef_fb m2 localT glob k (Or.inr (by rw [h2, hrt])), hfbm]
      · exact resolveDef_keep m2 localT glob k _ h2 hrt hre

theorem resolveKeyed_reread (localT glob m m2 : List (String × String)) (k : String)
    (Hm : ∀ p ∈ m, p.1 ≠ "" ∧ p.2 ≠ "")
    (Hm2 : dlookup m2 k =
      if k = "" ∨ resolveKeyed m localT glob k = "" then none
      else some (resolveKeyed m localT glob k)) :
    resolveKeyed m2 localT glob k = resolveKeyed m localT glob k := by
  have hmfb : dlookup m k = none ∨ dlookup m k = some "TODO" ∨
      (∃ w, dlookup m k = some w ∧ w ≠ "TODO" ∧ w ≠ "") := by
    cases h : dlookup m k with
    | none => exact Or.inl rfl
    | some w =>
      by_cases hw : w = "TODO"
      · exact Or.inr (Or.inl (by rw [hw]))
      · exact Or.inr (Or.inr ⟨w, rfl, hw, (Hm (k, w) (dlookup_mem h)).2⟩)
  have hkfb : ∀ hk : dlookup m k = none ∨ dlookup m k = some "TODO",
      (dlookup m k).getD "TODO" = "TODO" := by
    intro hk
    rcases hk with h | h <;> rw [h] <;> rfl
  by_cases hke : k = ""
  · subst hke
    have h1 : dlookup m "" = none := dlookup_empty_key_none m (fun p hp => (Hm p hp).1)
    have h2 : dlookup m2 "" = none := by rw [Hm2, if_pos (Or.inl rfl)]
    exact resolveKeyed_getD_congr m2 m localT glob "" (by rw [h1, h2])
  · by_cases hre : resolveKeyed m localT glob k = ""
    · have h2 : dlookup m2 k = none := by rw [Hm2, if_pos (Or.inr hre)]
      have hm0 : dlookup m k = none ∨ dlookup m k = some "TODO" := by
        rcases hmfb with h | h | ⟨w, hw, hw1, hw2⟩
        · exact Or.inl h
        · exact Or.inr h
        · exact absurd hre (by rw [resolveKeyed_keep m localT glob k w hw hw1 hw2]; exact hw2)
      refine resolveKeyed_getD_congr m2 m localT glob k ?_
      rw [h2, hkfb hm0]
      rfl
    · have h2 : dlookup m2 k = some (resolveKeyed m localT glob k) := by
        rw [Hm2, if_neg (by simp [hke, hre])]
      by_cases hrt : resolveKeyed m localT glob k = "TODO"
      · have hm0 : dlookup m k = none ∨ dlookup m k = some "TODO" := by
          rcases hmfb with h | h | ⟨w, hw, hw1, hw2⟩
          · exact Or.inl h
          · exact Or.inr h
          · exact absurd hrt (by rw [resolveKeyed_keep m localT glob k w hw hw1 hw2]; exact hw1)
        refine resolveKeyed_getD_congr m2 m localT glob k ?_
        rw [h2, hkfb hm0, hrt]
        rfl
      · exact resolveKeyed_keep m2 localT glob k _ h2 hrt hre

theorem map_congr_mem {α β : Type} (l : List α) (f g : α → β)
    (h : ∀ a ∈ l, f a = g a) : l.map f = l.map g := by
  induction l with
  | nil => rfl
  | cons x t ih =>
    rw [List.map_cons, List.map_cons, h x (List.mem_cons_self _ _),
      ih (fun a ha => h a (List.mem_cons_of_mem _ ha))]

theorem outDoc_ext (a b : OutDoc) (h1 : a.lives = b.lives)
    (h2 : a.orphans = b.orphans) : a = b := by
  cases a
  cases b
  simp_all

theorem saveDef_lives_all (defType : String) (recover : Bool)
    (entries glob english localT m : List (String × String)) (k : String) :
    ∀ e ∈ (saveDefDoc defType recover entries glob english localT m).lives,
      e.key = k → e.value = resolveDef m localT glob k := by
  intro e he hek
  simp only [saveDefDoc, List.mem_map] at he
  obtain ⟨pe, _hpe, rfl⟩ := he
  have hek' : pe.key = k := hek
  show resolveDef m localT glob pe.key = resolveDef m localT glob k
  rw [hek']

theorem saveKeyed_lives_all (kentries klocal kglob m : List (String × String))
    (k : String) :
    ∀ e ∈ (saveKeyedDoc kentries klocal kglob m).lives,
      e.key = k → e.value = resolveKeyed m klocal kglob k := by
  intro e he hek
  simp only [saveKeyedDoc, List.mem_map] at he
  obtain ⟨p, _hp, rfl⟩ := he
  have hek' : p.1 = k := hek
  show resolveKeyed m klocal kglob p.1 = resolveKeyed m klocal kglob k
  rw [hek']

theorem parseDef_of_save (defType : String) (recover : Bool)
    (entries glob english localT m : List (String × String)) (k : String)
    (hex : k ∈ usedKeysDef defType recover entries glob english) :
    dlookup (parseDefDoc (saveDefDoc defType recover entries glob english localT m)) k
      = if k = "" ∨ resolveDef m localT glob k = "" then none
        else some (pyStrip (resolveDef m localT glob k)) := by
  have hall := saveDef_lives_all defType recover entries glob english localT m k
  have hexl : ∃ e ∈ (saveDefDoc defType recover entries glob english localT m).lives,
      e.key = k := by
    rw [usedKeysDef, List.mem_map] at hex
    obtain ⟨pe, hpe, hk⟩ := hex
    refine ⟨⟨pe.key, pe.value, resolveDef m localT glob pe.key⟩, ?_, hk⟩
    simp only [saveDefDoc, List.mem_map]
    exact ⟨pe, hpe, rfl⟩
  rw [parseDefDoc, parseDocWith]
  by_cases hcond : k = "" ∨ resolveDef m localT glob k = ""
  · rw [if_pos hcond]
    rw [parse_fold_none pyStrip k _ [] (fun e he hek => by
      rcases hcond with h | h
      · exact Or.inr h
      · exact Or.inl (by rw [hall e he hek, h]))]
    rfl
  · rw [if_neg hcond]
    push_neg at hcond
    exact parse_fold_some pyStrip k (resolveDef m localT glob k) _ [] hall hexl
      hcond.1 hcond.2

theorem parseKeyed_of_save (kentries klocal kglob m : List (String × String)) (k : String)
    (hex : k ∈ kentries.map Prod.fst) :
    dlookup (parseKeyedDoc (saveKeyedDoc kentries klocal kglob m)) k
      = if k = "" ∨ resolveKeyed m klocal kglob k = "" then none
        else some (resolveKeyed m klocal kglob k) := by
  have hall := saveKeyed_lives_all kentries klocal kglob m k
  have hexl : ∃ e ∈ (saveKeyedDoc kentries klocal kglob m).lives, e.key = k := by
    rw [List.mem_map] at hex
    obtain ⟨p, hp, hk⟩ := hex
    refine ⟨⟨p.1, p.2, resolveKeyed m klocal kglob p.1⟩, ?_, hk⟩
    simp only [saveKeyedDoc, List.mem_map]
    exact ⟨p, hp, rfl⟩
  rw [parseKeyedDoc, parseDocWith]
  by_cases hcond : k = "" ∨ resolveKeyed m klocal kglob k = ""
  · rw [if_pos hcond]
    rw [parse_fold_none (fun v => v) k _ [] (fun e he hek => by
      rcases hcond with h | h
      · exact Or.inr h
      · exact Or.inl (by rw [hall e he hek, h]))]
    rfl
  · rw [if_neg hcond]
    push_neg at hcond
    exact parse_fold_some (fun v => v) k (resolveKeyed m klocal kglob k) _ [] hall hexl
      hcond.1 hcond.2

theorem saveDef_orphans_empty_of_parse (defType : String) (recover : Bool)
    (entries glob english localT m2 : List (String × String))
    (hkeys : ∀ p ∈ m2, p.1 ∈ usedKeysDef defType recover entries glob english) :
    (saveDefDoc defType recover entries glob english localT m2).orphans = [] := by
  have horr : (saveDefDoc defType recover entries glob english localT m2).orphans
      = m2.filter (fun p =>
          !(((processedEntries defType recover entries glob english).map
            PEntry.key).contains p.1)) := rfl
  rw [horr]
  rw [List.filter_eq_nil_iff]
  intro p hp
  have := hkeys p hp
  rw [usedKeysDef] at this
  have hcont : ((processedEntries defType recover entries glob english).map
      PEntry.key).contains p.1 = true := (contains_iff_mem _ _).mpr this
  simp only [hcont, Bool.not_true]
  exact fun h => Bool.noConfusion h

theorem saveKeyed_orphans_empty_of_parse (kentries klocal kglob m2 : List (String × String))
    (hkeys : ∀ p ∈ m2, p.1 ∈ kentries.map Prod.fst) :
    (saveKeyedDoc kentries klocal kglob m2).orphans = [] := by
  have horr : (saveKeyedDoc kentries klocal kglob m2).orphans
      = m2.filter (fun p => !((kentries.map Prod.fst).contains p.1)) := rfl
  rw [horr]
  rw [List.filter_eq_nil_iff]
  intro p hp
  have hcont : ((kentries.map Prod.fst).contains p.1) = true :=
    (contains_iff_mem _ _).mpr (hkeys p hp)
  simp only [hcont, Bool.not_true]
  exact fun h => Bool.noConfusion h

theorem parseDef_keys_used (defType : String) (recover : Bool)
    (entries glob english localT m : List (String × String)) :
    ∀ p ∈ parseDefDoc (saveDefDoc defType recover entries glob english localT m),
      p.1 ∈ usedKeysDef defType recover entries glob english := by
  intro p hp
  rw [parseDefDoc, parseDocWith] at hp
  rcases parse_mem_keys pyStrip _ [] p hp with h | h
  · rw [saveDef_lives_key_map] at h
    exact h
  · exact absurd h (List.not_mem_nil p)

theorem parseKeyed_keys_used (kentries klocal kglob m : List (String × String)) :
    ∀ p ∈ parseKeyedDoc (saveKeyedDoc kentries klocal kglob m),
      p.1 ∈ kentries.map Prod.fst := by
  intro p hp
  rw [parseKeyedDoc, parseDocWith] at hp
  rcases parse_mem_keys (fun v => v) _ [] p hp with h | h
  · rw [saveKeyed_lives_key_map] at h
    exact h
  · exact absurd h (List.not_mem_nil p)

theorem saveDef_lives_stripped (defType : String) (recover : Bool)
    (entries glob english localT m1 : List (String × String))
    (Hl : ∀ p ∈ localT, pyStrip p.2 = p.2) (Hg : ∀ p ∈ glob, pyStrip p.2 = p.2)
    (Hm1 : ∀ p ∈ m1, pyStrip p.2 = p.2) :
    ∀ e ∈ (saveDefDoc defType recover entries glob english localT m1).lives,
      pyStrip e.value = e.value := by
  intro e he
  simp only [saveDefDoc, List.mem_map] at he
  obtain ⟨pe, _hpe, rfl⟩ := he
  exact resolveDef_stripped m1 localT glob pe.key Hl Hg Hm1

/-- Claim C2 counterexample: the claim states that re-running with unchanged
inputs and the first run's output in place yields byte-identical output for
*every* input.  With a prior Keyed output holding the orphaned key `Old`, the
first run writes it as a commented `INUTILIZADO` record; the second run
re-parses the first run's file, where comments are invisible, so the orphan
section vanishes and the bytes differ. -/
theorem claim_C2_counterexample :
    (saveKeyedDoc [("A", "hello")] [] [] [("Old", "X")]).orphans = [("Old", "X")]
    ∧ (saveKeyedDoc [("A", "hello")] [] []
        (parseKeyedDoc (saveKeyedDoc [("A", "hello")] [] [] [("Old", "X")]))).orphans = []
    ∧ serializeKeyed (saveKeyedDoc [("A", "hello")] [] []
        (parseKeyedDoc (saveKeyedDoc [("A", "hello")] [] [] [("Old", "X")])))
      ≠ serializeKeyed (saveKeyedDoc [("A", "hello")] [] [] [("Old", "X")]) := by
  refine ⟨by decide, by decide, by decide⟩

/-- Claim C2 (amended): idempotence from the second run onward.  With sources
and archives unchanged (archive values being stripped, as the index loaders
guarantee, and the parsed prior values stripped, as the readers guarantee),
the third run's document — and hence its serialized bytes — is identical to
the second run's, for both DefInjected and Keyed writers and any initial
prior state.  The first run's output may differ from the second's only by
the dropped orphan records and empty-valued elements, which the re-parse
cannot see. -/
theorem claim_C2_amended_idempotence
    (defType : String) (recover : Bool)
    (entries glob english localT m1 : List (String × String))
    (kentries klocal kglob km1 : List (String × String))
    (Hl : ∀ p ∈ localT, pyStrip p.2 = p.2)
    (Hg : ∀ p ∈ glob, pyStrip p.2 = p.2)
    (Hm1 : ∀ p ∈ m1, pyStrip p.2 = p.2) :
    (saveDefDoc defType recover entries glob english localT
        (parseDefDoc (saveDefDoc defType recover entries glob english localT
          (parseDefDoc (saveDefDoc defType recover entries glob english localT m1))))
      = saveDefDoc defType recover entries glob english localT
          (parseDefDoc (saveDefDoc defType recover entries glob english localT m1)))
    ∧ (serializeDefInj (saveDefDoc defType recover entries glob english localT
        (parseDefDoc (saveDefDoc defType recover entries glob english localT
          (parseDefDoc (saveDefDoc defType recover entries glob english localT m1)))))
      = serializeDefInj (saveDefDoc defType recover entries glob english localT
          (parseDefDoc (saveDefDoc defType recover entries glob english localT m1))))
    ∧ (saveKeyedDoc kentries klocal kglob
        (parseKeyedDoc (saveKeyedDoc kentries klocal kglob
          (parseKeyedDoc (saveKeyedDoc kentries klocal kglob km1))))
      = saveKeyedDoc kentries klocal kglob
          (parseKeyedDoc (saveKeyedDoc kentries klocal kglob km1)))
    ∧ (serializeKeyed (saveKeyedDoc kentries klocal kglob
        (parseKeyedDoc (saveKeyedDoc kentries klocal kglob
          (parseKeyedDoc (saveKeyedDoc kentries klocal kglob km1)))))
      = serializeKeyed (saveKeyedDoc kentries klocal kglob
          (parseKeyedDoc (saveKeyedDoc kentries klocal kglob km1)))) := by
  set m2 := parseDefDoc (saveDefDoc defType recover entries glob english localT m1)
    with hm2
  set m3 := parseDefDoc (saveDefDoc defType recover entries glob english localT m2)
    with hm3
  have Hm2 : ∀ p ∈ m2, p.1 ≠ "" ∧ p.2 ≠ "" ∧ pyStrip p.2 = p.2 := by
    rw [hm2]
    exact parseDef_good _
      (saveDef_lives_stripped defType recover entries glob english localT m1 Hl Hg Hm1)
  have hptw : ∀ pe ∈ processedEntries defType recover entries glob english,
      resolveDef m3 localT glob pe.key = resolveDef m2 localT glob pe.key := by
    intro pe hpe
    apply resolveDef_reread localT glob m2 m3 pe.key Hl Hg Hm2
    rw [hm3]
    exact parseDef_of_save defType recover entries glob english localT m2 pe.key
      (by rw [usedKeysDef]; exact List.mem_map.mpr ⟨pe, hpe, rfl⟩)
  have hlives : (saveDefDoc defType recover entries glob english localT m3).lives
      = (saveDefDoc defType recover entries glob english localT m2).lives := by
    show (processedEntries defType recover entries glob english).map _
      = (processedEntries defType recover entries glob english).map _
    apply map_congr_mem
    intro pe hpe
    show DocEntry.mk pe.key pe.value (resolveDef m3 localT glob pe.key)
      = DocEntry.mk pe.key pe.value (resolveDef m2 localT glob pe.key)
    rw [hptw pe hpe]
  have horph3 : (saveDefDoc defType recover entries glob english localT m3).orphans
      = [] := by
    apply saveDef_orphans_empty_of_parse
    rw [hm3]
    exact parseDef_keys_used defType recover entries glob english localT m2
  have horph2 : (saveDefDoc defType recover entries glob english localT m2).orphans
      = [] := by
    apply saveDef_orphans_empty_of_parse
    rw [hm2]
    exact parseDef_keys_used defType recover entries glob english localT m1
  have hdoc : saveDefDoc defType recover entries glob english localT m3
      = saveDefDoc defType recover entries glob english localT m2 :=
    outDoc_ext _ _ hlives (by rw [horph3, horph2])
  set k2 := parseKeyedDoc (saveKeyedDoc kentries klocal kglob km1) with hk2
  set k3 := parseKeyedDoc (saveKeyedDoc kentries klocal kglob k2) with hk3
  have Hk2 : ∀ p ∈ k2, p.1 ≠ "" ∧ p.2 ≠ "" := by
    rw [hk2]
    exact parseKeyed_good _
  have hptwk : ∀ p ∈ kentries,
      resolveKeyed k3 klocal kglob p.1 = resolveKeyed k2 klocal kglob p.1 := by
    intro p hp
    apply resolveKeyed_reread klocal kglob k2 k3 p.1 Hk2
    rw [hk3]
    exact parseKeyed_of_save kentries klocal kglob k2 p.1
      (List.mem_map.mpr ⟨p, hp, rfl⟩)
  have hlivesk : (saveKeyedDoc kentries klocal kglob k3).lives
      = (saveKeyedDoc kentries klocal kglob k2).lives := by
    show kentries.map _ = kentries.map _
    apply map_congr_mem
    intro p hp
    show DocEntry.mk p.1 p.2 (resolveKeyed k3 klocal kglob p.1)
      = DocEntry.mk p.1 p.2 (resolveKeyed k2 klocal kglob p.1)
    rw [hptwk p hp]
  have horph3k : (saveKeyedDoc kentries klocal kglob k3).orphans = [] := by
    apply saveKeyed_orphans_empty_of_parse
    rw [hk3]
    exact parseKeyed_keys_used kentries klocal kglob k2
  have horph2k : (saveKeyedDoc kentries klocal kglob k2).orphans = [] := by
    apply saveKeyed_orphans_empty_of_parse
    rw [hk2]
    exact parseKeyed_keys_used kentries klocal kglob km1
  have hdock : saveKeyedDoc kentries klocal kglob k3
      = saveKeyedDoc kentries klocal kglob k2 :=
    outDoc_ext _ _ hlivesk (by rw [horph3k, horph2k])
  exact ⟨hdoc, by rw [hdoc], hdock, by rw [hdock]⟩

/-- Claim C2 witness: concrete second and third runs coincide, for a
DefInjected file with one fresh key and a stale prior key, and a Keyed file
with an archived translation. -/
theorem claim_C2_witness :
    (∀ p ∈ ([("W.label", "Uno")] : List (String × String)), pyStrip p.2 = p.2)
    ∧ (∀ p ∈ ([("Old.x", "V")] : List (String × String)), pyStrip p.2 = p.2)
    ∧ (saveDefDoc "ThingDef" false [("W.label", "One")] [("W.label", "Uno")] [] []
        (parseDefDoc (saveDefDoc "ThingDef" false [("W.label", "One")]
          [("W.label", "Uno")] [] []
          (parseDefDoc (saveDefDoc "ThingDef" false [("W.label", "One")]
            [("W.label", "Uno")] [] [] [("Old.x", "V")]))))
      = saveDefDoc "ThingDef" false [("W.label", "One")] [("W.label", "Uno")] [] []
          (parseDefDoc (saveDefDoc "ThingDef" false [("W.label", "One")]
            [("W.label", "Uno")] [] [] [("Old.x", "V")])))
    ∧ (saveKeyedDoc [("KK", "hi")] [] [("KK", "Hola")]
        (parseKeyedDoc (saveKeyedDoc [("KK", "hi")] [] [("KK", "Hola")]
          (parseKeyedDoc (saveKeyedDoc [("KK", "hi")] [] [("KK", "Hola")]
            [("Old", "X")]))))
      = saveKeyedDoc [("KK", "hi")] [] [("KK", "Hola")]
          (parseKeyedDoc (saveKeyedDoc [("KK", "hi")] [] [("KK", "Hola")]
            [("Old", "X")]))) := by
  have h := claim_C2_amended_idempotence "ThingDef" false [("W.label", "One")]
    [("W.label", "Uno")] [] [] [("Old.x", "V")] [("KK", "hi")] [] [("KK", "Hola")]
    [("Old", "X")] (by decide) (by decide) (by decide)
  exact ⟨by decide, by decide, h.1, h.2.2.1⟩

theorem digitVal_decDigit (d : Nat) (hd : d < 10) : digitVal (decDigit d) = d := by
  interval_cases d <;> rfl

theorem natToDecAux_foldl (fuel : Nat) : ∀ (n : Nat) (acc : List Char), n ≤ fuel →
    (natToDecAux fuel n acc).foldl (fun a c => a * 10 + digitVal c) 0
      = acc.foldl (fun a c => a * 10 + digitVal c) n := by
  induction fuel with
  | zero =>
    intro n acc hn
    have hz : n = 0 := Nat.le_zero.mp hn
    subst hz
    rw [natToDecAux, List.foldl_cons]
    norm_num
    rfl
  | succ fuel ih =>
    intro n acc hn
    rw [natToDecAux]
    by_cases h : n < 10
    · rw [if_pos h, List.foldl_cons, digitVal_decDigit n h]
      norm_num
    · rw [if_neg h]
      have h10 : 10 ≤ n := Nat.le_of_not_lt h
      have hdiv : n / 10 ≤ fuel := by
        have hlt : n / 10 < n := Nat.div_lt_self (by omega) (by omega)
        omega
      rw [ih (n / 10) _ hdiv, List.foldl_cons,
        digitVal_decDigit (n % 10) (Nat.mod_lt n (by omega))]
      congr 1
      omega

theorem natToDec_injective (m n : Nat) (h : natToDec m = natToDec n) : m = n := by
  have hm := natToDecAux_foldl m m [] (Nat.le_refl m)
  have hn := natToDecAux_foldl n n [] (Nat.le_refl n)
  have hdata : natToDecAux m m [] = natToDecAux n n [] := congrArg String.data h
  rw [hdata, hn] at hm
  exact hm.symm

theorem part_suffix_injective (name : String) :
    Function.Injective (fun i : Nat => name ++ "-" ++ natToDec i) := by
  intro i j h
  apply natToDec_injective
  have h2 : (name ++ "-") ++ natToDec i = (name ++ "-") ++ natToDec j := h
  have hd := congrArg String.data h2
  rw [String.data_append, String.data_append] at hd
  exact String.ext (List.append_cancel_left hd)

theorem lookupNat_setNat_self (m : List (String × Nat)) (k : String) (v : Nat) :
    lookupNat (setNat m k v) k = v := by
  induction m with
  | nil => simp [setNat, lookupNat]
  | cons q rest ih =>
    obtain ⟨q1, q2⟩ := q
    rw [setNat]
    by_cases hq : (q1 == k) = true
    · rw [if_pos hq, lookupNat, if_pos (by simp)]
    · rw [if_neg hq, lookupNat, if_neg hq]
      exact ih

theorem lookupNat_setNat_other (m : List (String × Nat)) (k k2 : String) (v : Nat)
    (h : k ≠ k2) : lookupNat (setNat m k v) k2 = lookupNat m k2 := by
  induction m with
  | nil => simp [setNat, lookupNat, h]
  | cons q rest ih =>
    obtain ⟨q1, q2⟩ := q
    rw [setNat]
    by_cases hq : (q1 == k) = true
    · have hq' : q1 = k := by simpa using hq
      rw [if_pos hq, lookupNat, lookupNat, if_neg (by simpa using h), hq',
        if_neg (by simpa using h)]
    · rw [if_neg hq, lookupNat, lookupNat]
      by_cases hk2 : (q1 == k2) = true
      · rw [if_pos hk2, if_pos hk2]
      · rw [if_neg hk2, if_neg hk2]
        exact ih

theorem computePart_other (all : List XNode) (child : XNode)
    (ni : List (String × Nat)) (li : Nat) (h : ¬ (child.tag == "li") = true) :
    computePart all child ni li = (child.tag, ni, li) := by
  rw [computePart, if_neg h]

theorem computePart_li_anon (all : List XNode) (child : XNode)
    (ni : List (String × Nat)) (li : Nat) (h : (child.tag == "li") = true)
    (hn : liNameT child = none) :
    computePart all child ni li = (natToDec li, ni, li + 1) := by
  rw [computePart, if_pos h, hn]

theorem computePart_li_dup (all : List XNode) (child : XNode)
    (ni : List (String × Nat)) (li : Nat) (m : String)
    (h : (child.tag == "li") = true) (hn : liNameT child = some m)
    (hc : liNameCount all m > 1) :
    computePart all child ni li
      = (m ++ "-" ++ natToDec (lookupNat ni m), setNat ni m (lookupNat ni m + 1),
        li + 1) := by
  rw [computePart, if_pos h, hn]
  simp only [if_pos hc]

theorem computePart_li_unique (all : List XNode) (child : XNode)
    (ni : List (String × Nat)) (li : Nat) (m : String)
    (h : (child.tag == "li") = true) (hn : liNameT child = some m)
    (hc : ¬ liNameCount all m > 1) :
    computePart all child ni li = (m, ni, li + 1) := by
  rw [computePart, if_pos h, hn]
  simp only [if_neg hc]

theorem liNameCount_cons (c : XNode) (t : List XNode) (n : String) :
    liNameCount (c :: t) n
      = (if (c.tag == "li" && liNameT c == some n) = true then 1 else 0)
        + liNameCount t n := by
  rw [liNameCount, liNameCount, List.filter_cons]
  by_cases h : (c.tag == "li" && liNameT c == some n) = true
  · rw [if_pos h, if_pos h, List.length_cons]
    omega
  · rw [if_neg h, if_neg h]
    omega

theorem childParts_liPartsFor (all : List XNode) (n : String)
    (hcnt : 1 < liNameCount all n) :
    ∀ (rest : List XNode) (ni : List (String × Nat)) (li : Nat),
    liPartsFor n (childParts all rest ni li)
      = (List.range' (lookupNat ni n) (liNameCount rest n)).map
          (fun i => n ++ "-" ++ natToDec i) := by
  intro rest
  induction rest with
  | nil => intro ni li; rfl
  | cons child rest' ih =>
    intro ni li
    rw [childParts]
    by_cases hdn : (child.tag == "defName") = true
    · rw [if_pos hdn, ih ni li, liNameCount_cons]
      have htag : child.tag = "defName" := by simpa using hdn
      rw [if_neg (by simp [htag]), Nat.zero_add]
    · rw [if_neg hdn]
      by_cases hli : (child.tag == "li") = true
      · cases hname : liNameT child with
        | none =>
          rw [computePart_li_anon all child ni li hli hname]
          rw [liPartsFor, if_neg (by simp [hname])]
          rw [ih ni (li + 1), liNameCount_cons, if_neg (by simp [hname]), Nat.zero_add]
        | some m =>
          by_cases hdup : liNameCount all m > 1
          · by_cases hmn : m = n
            · subst hmn
              rw [computePart_li_dup all child ni li m hli hname hdup]
              rw [liPartsFor, if_pos (by simp [hli, hname])]
              rw [ih (setNat ni m (lookupNat ni m + 1)) (li + 1),
                lookupNat_setNat_self, liNameCount_cons,
                if_pos (by simp [hli, hname]), Nat.add_comm 1 (liNameCount rest' m),
                List.range'_succ, List.map_cons]
            · rw [computePart_li_dup all child ni li m hli hname hdup]
              rw [liPartsFor, if_neg (by simp [hname, hmn])]
              rw [ih (setNat ni m (lookupNat ni m + 1)) (li + 1),
                lookupNat_setNat_other ni m n _ hmn, liNameCount_cons,
                if_neg (by simp [hname, hmn]), Nat.zero_add]
          · have hmn : m ≠ n := by
              intro hmn
              subst hmn
              exact hdup hcnt
            rw [computePart_li_unique all child ni li m hli hname hdup]
            rw [liPartsFor, if_neg (by simp [hname, hmn])]
            rw [ih ni (li + 1), liNameCount_cons, if_neg (by simp [hname, hmn]),
              Nat.zero_add]
      · rw [computePart_other all child ni li hli]
        rw [liPartsFor, if_neg (by simp [hli])]
        rw [ih ni li, liNameCount_cons, if_neg (by simp [hli]), Nat.zero_add]

theorem extractLoop_eq_childParts (bl wl : List String) (parentTag : String)
    (currentPath : String) (all : List XNode) :
    ∀ (rest : List XNode) (ni : List (String × Nat)) (li : Nat),
    extractLoop bl wl parentTag all rest ni li currentPath
      = (childParts all rest ni li).foldr
          (fun pc acc => emitChild bl wl parentTag pc.1 (currentPath ++ "." ++ pc.2)
            ++ extract_recursive bl wl pc.1 (currentPath ++ "." ++ pc.2) ++ acc) [] := by
  intro rest
  induction rest with
  | nil => intro ni li; rfl
  | cons child rest' ih =>
    intro ni li
    rw [extractLoop, childParts]
    by_cases hdn : (child.tag == "defName") = true
    · rw [if_pos hdn, if_pos hdn]
      exact ih ni li
    · rw [if_neg hdn, if_neg hdn, List.foldr_cons]
      show emitChild bl wl parentTag child
          (currentPath ++ "." ++ (computePart all child ni li).1)
        ++ extract_recursive bl wl child
          (currentPath ++ "." ++ (computePart all child ni li).1)
        ++ extractLoop bl wl parentTag all rest'
          (computePart all child ni li).2.1 (computePart all child ni li).2.2 currentPath
        = emitChild bl wl parentTag child
          (currentPath ++ "." ++ (computePart all child ni li).1)
        ++ extract_recursive bl wl child
          (currentPath ++ "." ++ (computePart all child ni li).1)
        ++ (childParts all rest' (computePart all child ni li).2.1
            (computePart all child ni li).2.2).foldr
          (fun pc acc => emitChild bl wl parentTag pc.1 (currentPath ++ "." ++ pc.2)
            ++ extract_recursive bl wl pc.1 (currentPath ++ "." ++ pc.2) ++ acc) []
      rw [ih]

/-- Claim C6 counterexample: the claim demands pairwise-distinct keys for all
sibling list items resolving to the same display name under the rule "label
attribute, then reference attribute, then positional index".  In `cexNodeC6`
the first `li` resolves to `"2"` via its `def` reference and the third,
unnamed, `li` resolves to positional index 2 — the same display name — yet
both emit the identical key `P.2.label`: the numeric-suffix disambiguation
only consults the histogram of named items, never the positional indices. -/
theorem claim_C6_counterexample :
    extract_recursive blacklisted_tags translatable_tags cexNodeC6 "P"
      = [("P.2.label", "x"), ("P.2.label", "y")]
    ∧ liNameT (XNode.mk "li" none [XNode.mk "def" (some "2") [],
        XNode.mk "label" (some "x") []]) = some "2"
    ∧ get_li_name (XNode.mk "li" none [XNode.mk "label" (some "y") []]) = none := by
  refine ⟨by decide, by decide, by decide⟩

/-- Claim C6 (amended): disambiguation uniqueness among named siblings.  The
extraction loop factors through the per-child part assignment `childParts`;
and within one parent, whenever more than one sibling list item resolves to
the same truthy display name `n` (via the label attribute, then the reference
attribute), the parts assigned to those siblings are exactly `n-0`, `n-1`, …
in source order — pairwise distinct.  Unnamed items instead use their
positional index among list items, which can coincide with a named sibling's
part. -/
theorem claim_C6_amended_disambiguation
    (bl wl : List String) (node : XNode) (currentPath : String)
    (n : String) (hcnt : 1 < liNameCount node.children n) :
    (extract_recursive bl wl node currentPath
      = (childParts node.children node.children [] 0).foldr
          (fun pc acc => emitChild bl wl node.tag pc.1 (currentPath ++ "." ++ pc.2)
            ++ extract_recursive bl wl pc.1 (currentPath ++ "." ++ pc.2) ++ acc) [])
    ∧ liPartsFor n (childParts node.children node.children [] 0)
        = (List.range (liNameCount node.children n)).map
            (fun i => n ++ "-" ++ natToDec i)
    ∧ (liPartsFor n (childParts node.children node.children [] 0)).Pairwise (· ≠ ·) := by
  have hbridge : extract_recursive bl wl node currentPath
      = (childParts node.children node.children [] 0).foldr
          (fun pc acc => emitChild bl wl node.tag pc.1 (currentPath ++ "." ++ pc.2)
            ++ extract_recursive bl wl pc.1 (currentPath ++ "." ++ pc.2) ++ acc) [] := by
    cases node with
    | mk tag tx children =>
      rw [extract_recursive]
      exact extractLoop_eq_childParts bl wl tag currentPath children children [] 0
  have hchar := childParts_liPartsFor node.children n hcnt node.children [] 0
  rw [show lookupNat [] n = 0 from rfl] at hchar
  rw [← List.range_eq_range'] at hchar
  refine ⟨hbridge, hchar, ?_⟩
  rw [hchar]
  exact List.Nodup.map (part_suffix_injective n)
    (List.nodup_range (liNameCount node.children n))

/-- Claim C6 witness: two sibling `li` items both named `"a"` receive the
distinct parts `a-0` and `a-1`, and the emitted keys are distinct. -/
theorem claim_C6_witness :
    1 < liNameCount wNodeC6.children "a"
    ∧ liPartsFor "a" (childParts wNodeC6.children wNodeC6.children [] 0)
        = (List.range (liNameCount wNodeC6.children "a")).map
            (fun i => "a" ++ "-" ++ natToDec i)
    ∧ (liPartsFor "a" (childParts wNodeC6.children wNodeC6.children [] 0)).Pairwise
        (· ≠ ·)
    ∧ extract_recursive blacklisted_tags translatable_tags wNodeC6 "Q"
      = [("Q.a-0.label", "x1"), ("Q.a-1.label", "x2")] := by
  have h := claim_C6_amended_disambiguation blacklisted_tags translatable_tags wNodeC6
    "Q" "a" (by decide)
  exact ⟨by decide, h.2.1, h.2.2, by decide⟩
